import Mathlib

/-!
# Verification of the futures-rs sink adapter layer

Shallow embedding of the sink adapter composition protocol of
`futures-util/src/sink/mod.rs` (the `SinkExt` combinators `with`,
`with_flat_map`, `buffer`, `fanout`, `send_all` and the one-shot
`flush`/`close` drivers).  The repository snapshot ships only the
`SinkExt` trait declarations; the adapter state machines themselves are
modelled from the specification of the adapter composition protocol
(§4.1–§4.7), with type signatures mirroring the trait bounds in
`mod.rs`.

A sink is embedded as a record of three state-transition functions:
`start_send`, `poll_flush`, `poll_close`, over an explicit state type.
Pending/ready outcomes of the cooperative polling protocol are explicit
constructors; asynchronous conversion futures are embedded as a
countdown paired with their eventual result.
-/

set_option maxHeartbeats 1000000

namespace FuturesSink

/-- Outcome of `start_send`: the item was accepted, rejected for
backpressure (caller keeps the item and retries), or the sink failed. -/
inductive SendRes (ε : Type) where
  | accepted
  | rejected
  | error (e : ε)
deriving DecidableEq, Repr

/-- Outcome of `poll_flush` / `poll_close`. -/
inductive PollRes (ε : Type) where
  | pending
  | ready
  | error (e : ε)
deriving DecidableEq, Repr

/-- Modelled from the spec: the three-phase sink contract (§4.1).  A sink
over state `σ`, item type `ι` and error type `ε` is a triple of
state-transition functions. -/
structure Sink (σ ι ε : Type) where
  start_send : σ → ι → σ × SendRes ε
  poll_flush : σ → σ × PollRes ε
  poll_close : σ → σ × PollRes ε

/-! ## A recording base sink

A concrete transport sink used as the innermost sink in all scenarios:
it records accepted items in order.  `budget` bounds how many items it
will still accept (`none` = unbounded), `delay` makes it reject that
many times before the next accept, `errAt` makes it fail when asked to
accept the item with that index, and `failed` latches an error.
`dirty` is set by accepts and cleared by flush; `closed` by close. -/

structure RecSt (ι : Type) where
  recorded : List ι := []
  budget : Option Nat := none
  delay : Nat := 0
  errAt : Option Nat := none
  failed : Option Nat := none
  dirty : Bool := false
  closed : Bool := false
deriving DecidableEq, Repr

def recSend (s : RecSt ι) (v : ι) : RecSt ι × SendRes Nat :=
  match s.failed with
  | some e => (s, .error e)
  | none =>
    if s.errAt = some s.recorded.length then
      ({ s with failed := some s.recorded.length }, .error s.recorded.length)
    else match s.delay with
    | d + 1 => ({ s with delay := d }, .rejected)
    | 0 =>
      match s.budget with
      | none => ({ s with recorded := s.recorded ++ [v], dirty := true }, .accepted)
      | some 0 => (s, .rejected)
      | some (b + 1) =>
          ({ s with recorded := s.recorded ++ [v], budget := some b, dirty := true },
            .accepted)

def recFlush (s : RecSt ι) : RecSt ι × PollRes Nat :=
  match s.failed with
  | some e => (s, .error e)
  | none => ({ s with dirty := false }, .ready)

def recClose (s : RecSt ι) : RecSt ι × PollRes Nat :=
  match s.failed with
  | some e => (s, .error e)
  | none => ({ s with dirty := false, closed := true }, .ready)

/-- The recording base sink. -/
def recSink (ι : Type) : Sink (RecSt ι) ι Nat :=
  ⟨recSend, recFlush, recClose⟩

/-! ## The `SendAll` driver

Modelled from the spec (§4.6) and the `SinkExt::send_all` documentation
in `mod.rs`: drive every item of a finite stream (a list) into the sink,
retrying rejected items, then drive `poll_flush` to completion.  The
sink is *not* closed.  `fuel` bounds the number of polls; `none` means
the driver did not complete within the fuel. -/
def sendAll (S : Sink σ ι ε) : Nat → σ → List ι → Option σ
  | 0, _, _ => none
  | fuel + 1, s, [] =>
    match S.poll_flush s with
    | (s', .ready) => some s'
    | (s', .pending) => sendAll S fuel s' []
    | (_, .error _) => none
  | fuel + 1, s, v :: vs =>
    match S.start_send s v with
    | (s', .accepted) => sendAll S fuel s' vs
    | (s', .rejected) => sendAll S fuel s' (v :: vs)
    | (_, .error _) => none

/-! ## Bounded Buffer adapter

Modelled from the spec (§4.4) and `SinkExt::buffer` (mod.rs lines
144–161): a fixed-capacity queue in front of an inner sink.  Items are
removed from the front only when the inner sink has accepted them; a
push succeeds only while the queue is shorter than the capacity;
capacity 0 degrades to pure pass-through.  On an inner error the
adapter latches the error (§4.1: propagate the error upward and stop
driving that sink). -/

structure Buffer (σ ι ε : Type) where
  sink : σ
  buf : List ι := []
  err : Option ε := none
deriving DecidableEq, Repr

/-- Forward as many queued items as possible to the inner sink
(non-blocking best effort). -/
def tryEmpty (S : Sink σ ι ε) : List ι → σ → σ × List ι × Option ε
  | [], s => (s, [], none)
  | v :: q, s =>
    match S.start_send s v with
    | (s', .accepted) => tryEmpty S q s'
    | (s', .rejected) => (s', v :: q, none)
    | (s', .error e) => (s', v :: q, some e)

def bufSend (S : Sink σ ι ε) (cap : Nat) (b : Buffer σ ι ε) (v : ι) :
    Buffer σ ι ε × SendRes ε :=
  match b.err with
  | some e => (b, .error e)
  | none =>
    if cap = 0 then
      match S.start_send b.sink v with
      | (s', .accepted) => ({ b with sink := s' }, .accepted)
      | (s', .rejected) => ({ b with sink := s' }, .rejected)
      | (s', .error e) => (⟨s', b.buf, some e⟩, .error e)
    else
      match tryEmpty S b.buf b.sink with
      | (s', q', some e) => (⟨s', q', some e⟩, .error e)
      | (s', q', none) =>
        if q'.length < cap then (⟨s', q' ++ [v], none⟩, .accepted)
        else (⟨s', q', none⟩, .rejected)

def bufFlush (S : Sink σ ι ε) (b : Buffer σ ι ε) : Buffer σ ι ε × PollRes ε :=
  match b.err with
  | some e => (b, .error e)
  | none =>
    match tryEmpty S b.buf b.sink with
    | (s', q', some e) => (⟨s', q', some e⟩, .error e)
    | (s', q', none) =>
      match q' with
      | _ :: _ => (⟨s', q', none⟩, .pending)
      | [] =>
        match S.poll_flush s' with
        | (s'', .ready) => (⟨s'', [], none⟩, .ready)
        | (s'', .pending) => (⟨s'', [], none⟩, .pending)
        | (s'', .error e) => (⟨s'', [], some e⟩, .error e)

def bufClose (S : Sink σ ι ε) (b : Buffer σ ι ε) : Buffer σ ι ε × PollRes ε :=
  match b.err with
  | some e => (b, .error e)
  | none =>
    match tryEmpty S b.buf b.sink with
    | (s', q', some e) => (⟨s', q', some e⟩, .error e)
    | (s', q', none) =>
      match q' with
      | _ :: _ => (⟨s', q', none⟩, .pending)
      | [] =>
        match S.poll_close s' with
        | (s'', .ready) => (⟨s'', [], none⟩, .ready)
        | (s'', .pending) => (⟨s'', [], none⟩, .pending)
        | (s'', .error e) => (⟨s'', [], some e⟩, .error e)

/-- The `buffer(capacity)` adapter as a sink. -/
def buffer (S : Sink σ ι ε) (cap : Nat) : Sink (Buffer σ ι ε) ι ε :=
  ⟨bufSend S cap, bufFlush S, bufClose S⟩

/-! ## Value mapper adapter (With)

Modelled from the spec (§4.2) and `SinkExt::with` (mod.rs lines 60–67):
the step function produces an asynchronous conversion, embedded as a
countdown `d` paired with the eventual `Except` result; the item is
accepted when the pending slot is empty, and the slot is drained
(future polled to completion, converted item pushed and retried) before
anything else happens.  Per the `E: From<Self::SinkError>` bound, inner
errors are reported through the conversion `g`; step-function errors
are reported as the adapter's own error unchanged. -/

deriving instance DecidableEq for Except

inductive WSlot (ι ε' : Type) where
  | empty
  | conv (d : Nat) (r : Except ε' ι)
  | buffered (v : ι)
deriving DecidableEq, Repr

structure With (σ ι ε' : Type) where
  sink : σ
  slot : WSlot ι ε' := .empty
  err : Option ε' := none
deriving DecidableEq, Repr

/-- Push a converted item into the inner sink, keeping it buffered on
backpressure. -/
def wtrySend (S : Sink σ ι ε) (g : ε → ε') (w : With σ ι ε') (v : ι) :
    With σ ι ε' :=
  match S.start_send w.sink v with
  | (s', .accepted) => { sink := s', slot := .empty, err := w.err }
  | (s', .rejected) => { sink := s', slot := .buffered v, err := w.err }
  | (s', .error e) => { sink := s', slot := .buffered v, err := some (g e) }

/-- Advance the pending conversion by one poll. -/
def wdrive (S : Sink σ ι ε) (g : ε → ε') (w : With σ ι ε') : With σ ι ε' :=
  match w.slot with
  | .empty => w
  | .buffered v => wtrySend S g w v
  | .conv 0 (.ok v) => wtrySend S g { w with slot := .buffered v } v
  | .conv 0 (.error e) => { w with slot := .empty, err := some e }
  | .conv (d + 1) r => { w with slot := .conv d r }

def withSend (S : Sink σ ι ε) (g : ε → ε') (f : υ → Nat × Except ε' ι)
    (w : With σ ι ε') (u : υ) : With σ ι ε' × SendRes ε' :=
  match w.err with
  | some e => (w, .error e)
  | none =>
    let w1 := wdrive S g w
    match w1.err with
    | some e => (w1, .error e)
    | none =>
      match w1.slot with
      | .empty => ({ w1 with slot := .conv (f u).1 (f u).2 }, .accepted)
      | _ => (w1, .rejected)

def withFlush (S : Sink σ ι ε) (g : ε → ε') (w : With σ ι ε') :
    With σ ι ε' × PollRes ε' :=
  match w.err with
  | some e => (w, .error e)
  | none =>
    let w1 := wdrive S g w
    match w1.err with
    | some e => (w1, .error e)
    | none =>
      match w1.slot with
      | .empty =>
        match S.poll_flush w1.sink with
        | (s', .ready) => ({ w1 with sink := s' }, .ready)
        | (s', .pending) => ({ w1 with sink := s' }, .pending)
        | (s', .error e) => ({ w1 with sink := s', err := some (g e) }, .error (g e))
      | _ => (w1, .pending)

def withClose (S : Sink σ ι ε) (g : ε → ε') (w : With σ ι ε') :
    With σ ι ε' × PollRes ε' :=
  match w.err with
  | some e => (w, .error e)
  | none =>
    let w1 := wdrive S g w
    match w1.err with
    | some e => (w1, .error e)
    | none =>
      match w1.slot with
      | .empty =>
        match S.poll_close w1.sink with
        | (s', .ready) => ({ w1 with sink := s' }, .ready)
        | (s', .pending) => ({ w1 with sink := s' }, .pending)
        | (s', .error e) => ({ w1 with sink := s', err := some (g e) }, .error (g e))
      | _ => (w1, .pending)

/-- The `with(f)` adapter as a sink: `g` is the `From` conversion of the
inner error type into the adapter's error type, `f u` the asynchronous
conversion produced by the step function. -/
def withSink (S : Sink σ ι ε) (g : ε → ε') (f : υ → Nat × Except ε' ι) :
    Sink (With σ ι ε') υ ε' :=
  ⟨withSend S g f, withFlush S g, withClose S g⟩

/-! ## Expansion adapter (WithFlatMap)

Modelled from the spec (§4.3) and `SinkExt::with_flat_map` (mod.rs
lines 103–109): one external item maps to a lazy sequence of
`Result<SinkItem, SinkError>` elements (the stream's item type shares
the inner sink's error type exactly); the sub-sequence is drained fully
before the next external item is accepted, and an error element is
surfaced directly as the adapter's error. -/

structure WithFlatMap (σ ι ε : Type) where
  sink : σ
  buffered : Option ι := none
  stm : List (Except ε ι) := []
  err : Option ε := none
deriving DecidableEq, Repr

/-- Drain sub-sequence elements into the inner sink until backpressure,
exhaustion or an error. -/
def fmDrain (S : Sink σ ι ε) :
    List (Except ε ι) → σ → σ × Option ι × List (Except ε ι) × Option ε
  | [], s => (s, none, [], none)
  | .error e :: tl, s => (s, none, tl, some e)
  | .ok v :: tl, s =>
    match S.start_send s v with
    | (s', .accepted) => fmDrain S tl s'
    | (s', .rejected) => (s', some v, tl, none)
    | (s', .error e) => (s', some v, tl, some e)

/-- Advance the draining state machine by one poll. -/
def fmDrive (S : Sink σ ι ε) (m : WithFlatMap σ ι ε) : WithFlatMap σ ι ε :=
  match m.buffered with
  | some v =>
    match S.start_send m.sink v with
    | (s', .accepted) =>
      match fmDrain S m.stm s' with
      | (s'', b, tl, eo) => ⟨s'', b, tl, eo⟩
    | (s', .rejected) => { m with sink := s' }
    | (s', .error e) => { m with sink := s', err := some e }
  | none =>
    match fmDrain S m.stm m.sink with
    | (s'', b, tl, eo) => ⟨s'', b, tl, eo⟩

def fmSend (S : Sink σ ι ε) (f : υ → List (Except ε ι))
    (m : WithFlatMap σ ι ε) (u : υ) : WithFlatMap σ ι ε × SendRes ε :=
  match m.err with
  | some e => (m, .error e)
  | none =>
    let m1 := fmDrive S m
    match m1.err with
    | some e => (m1, .error e)
    | none =>
      match m1.buffered, m1.stm with
      | none, [] => ({ m1 with stm := f u }, .accepted)
      | _, _ => (m1, .rejected)

def fmFlush (S : Sink σ ι ε) (m : WithFlatMap σ ι ε) :
    WithFlatMap σ ι ε × PollRes ε :=
  match m.err with
  | some e => (m, .error e)
  | none =>
    let m1 := fmDrive S m
    match m1.err with
    | some e => (m1, .error e)
    | none =>
      match m1.buffered, m1.stm with
      | none, [] =>
        match S.poll_flush m1.sink with
        | (s', .ready) => ({ m1 with sink := s' }, .ready)
        | (s', .pending) => ({ m1 with sink := s' }, .pending)
        | (s', .error e) => ({ m1 with sink := s', err := some e }, .error e)
      | _, _ => (m1, .pending)

def fmClose (S : Sink σ ι ε) (m : WithFlatMap σ ι ε) :
    WithFlatMap σ ι ε × PollRes ε :=
  match m.err with
  | some e => (m, .error e)
  | none =>
    let m1 := fmDrive S m
    match m1.err with
    | some e => (m1, .error e)
    | none =>
      match m1.buffered, m1.stm with
      | none, [] =>
        match S.poll_close m1.sink with
        | (s', .ready) => ({ m1 with sink := s' }, .ready)
        | (s', .pending) => ({ m1 with sink := s' }, .pending)
        | (s', .error e) => ({ m1 with sink := s', err := some e }, .error e)
      | _, _ => (m1, .pending)

/-- The `with_flat_map(f)` adapter as a sink.  Note the adapter's error
type is the inner sink's error type `ε`, with no conversion. -/
def withFlatMap (S : Sink σ ι ε) (f : υ → List (Except ε ι)) :
    Sink (WithFlatMap σ ι ε) υ ε :=
  ⟨fmSend S f, fmFlush S, fmClose S⟩

/-! ## Fanout adapter

Modelled from the spec (§4.5) and `SinkExt::fanout` (mod.rs lines
170–180): each item is duplicated to two sinks with identical item and
error types; the adapter tracks which of the two has accepted the item
so far, reports accepted only once both have, and never re-sends the
item to a sink that already accepted it. -/

structure Fanout (σ₁ σ₂ ι ε : Type) where
  sink1 : σ₁
  sink2 : σ₂
  slot : Option (ι × Bool × Bool) := none
  err : Option ε := none
deriving DecidableEq, Repr

/-- Try one side: skip it if it already accepted the item. -/
def fanTry (S : Sink σ ι ε) (a : Bool) (s : σ) (v : ι) : σ × Bool × Option ε :=
  if a then (s, true, none)
  else
    match S.start_send s v with
    | (s', .accepted) => (s', true, none)
    | (s', .rejected) => (s', false, none)
    | (s', .error e) => (s', false, some e)

def fanSend (S₁ : Sink σ₁ ι ε) (S₂ : Sink σ₂ ι ε) (t : Fanout σ₁ σ₂ ι ε)
    (v : ι) : Fanout σ₁ σ₂ ι ε × SendRes ε :=
  match t.err with
  | some e => (t, .error e)
  | none =>
    let p := t.slot.getD (v, false, false)
    match fanTry S₁ p.2.1 t.sink1 p.1 with
    | (s1', b1, e1) =>
      match fanTry S₂ p.2.2 t.sink2 p.1 with
      | (s2', b2, e2) =>
        match e1 with
        | some e => (⟨s1', s2', t.slot, some e⟩, .error e)
        | none =>
          match e2 with
          | some e => (⟨s1', s2', t.slot, some e⟩, .error e)
          | none =>
            if b1 && b2 then (⟨s1', s2', none, none⟩, .accepted)
            else (⟨s1', s2', some (p.1, b1, b2), none⟩, .rejected)

def fanFlush (S₁ : Sink σ₁ ι ε) (S₂ : Sink σ₂ ι ε) (t : Fanout σ₁ σ₂ ι ε) :
    Fanout σ₁ σ₂ ι ε × PollRes ε :=
  match t.err with
  | some e => (t, .error e)
  | none =>
    match t.slot with
    | some (w, a1, a2) =>
      match fanTry S₁ a1 t.sink1 w with
      | (s1', b1, e1) =>
        match fanTry S₂ a2 t.sink2 w with
        | (s2', b2, e2) =>
          match e1 with
          | some e => (⟨s1', s2', t.slot, some e⟩, .error e)
          | none =>
            match e2 with
            | some e => (⟨s1', s2', t.slot, some e⟩, .error e)
            | none =>
              if b1 && b2 then (⟨s1', s2', none, none⟩, .pending)
              else (⟨s1', s2', some (w, b1, b2), none⟩, .pending)
    | none =>
      match S₁.poll_flush t.sink1 with
      | (s1', r1) =>
        match S₂.poll_flush t.sink2 with
        | (s2', r2) =>
          match r1 with
          | .error e => (⟨s1', s2', none, some e⟩, .error e)
          | .pending =>
            match r2 with
            | .error e => (⟨s1', s2', none, some e⟩, .error e)
            | _ => (⟨s1', s2', none, none⟩, .pending)
          | .ready =>
            match r2 with
            | .error e => (⟨s1', s2', none, some e⟩, .error e)
            | .pending => (⟨s1', s2', none, none⟩, .pending)
            | .ready => (⟨s1', s2', none, none⟩, .ready)

def fanClose (S₁ : Sink σ₁ ι ε) (S₂ : Sink σ₂ ι ε) (t : Fanout σ₁ σ₂ ι ε) :
    Fanout σ₁ σ₂ ι ε × PollRes ε :=
  match t.err with
  | some e => (t, .error e)
  | none =>
    match t.slot with
    | some (w, a1, a2) =>
      match fanTry S₁ a1 t.sink1 w with
      | (s1', b1, e1) =>
        match fanTry S₂ a2 t.sink2 w with
        | (s2', b2, e2) =>
          match e1 with
          | some e => (⟨s1', s2', t.slot, some e⟩, .error e)
          | none =>
            match e2 with
            | some e => (⟨s1', s2', t.slot, some e⟩, .error e)
            | none =>
              if b1 && b2 then (⟨s1', s2', none, none⟩, .pending)
              else (⟨s1', s2', some (w, b1, b2), none⟩, .pending)
    | none =>
      match S₁.poll_close t.sink1 with
      | (s1', r1) =>
        match S₂.poll_close t.sink2 with
        | (s2', r2) =>
          match r1 with
          | .error e => (⟨s1', s2', none, some e⟩, .error e)
          | .pending =>
            match r2 with
            | .error e => (⟨s1', s2', none, some e⟩, .error e)
            | _ => (⟨s1', s2', none, none⟩, .pending)
          | .ready =>
            match r2 with
            | .error e => (⟨s1', s2', none, some e⟩, .error e)
            | .pending => (⟨s1', s2', none, none⟩, .pending)
            | .ready => (⟨s1', s2', none, none⟩, .ready)

/-- The `fanout(other)` adapter as a sink. -/
def fanout (S₁ : Sink σ₁ ι ε) (S₂ : Sink σ₂ ι ε) :
    Sink (Fanout σ₁ σ₂ ι ε) ι ε :=
  ⟨fanSend S₁ S₂, fanFlush S₁ S₂, fanClose S₁ S₂⟩

/-! ## The stream-side `forward` driver

Modelled from the spec (§4.6, "exposed both as a method on the sink
(taking a stream) and, symmetrically, as a method on the stream (taking
a sink)"): the implementation of `StreamExt::forward` is not in the
snapshot, so it is modelled directly from the spec's algorithm, with an
explicit slot for the previously pulled, not-yet-sent item. -/
def forwardAux (S : Sink σ ι ε) : Nat → σ → Option ι → List ι → Option σ
  | 0, _, _, _ => none
  | fuel + 1, s, some v, xs =>
    match S.start_send s v with
    | (s', .accepted) => forwardAux S fuel s' none xs
    | (s', .rejected) => forwardAux S fuel s' (some v) xs
    | (_, .error _) => none
  | fuel + 1, s, none, [] =>
    match S.poll_flush s with
    | (s', .ready) => some s'
    | (s', .pending) => forwardAux S fuel s' none []
    | (_, .error _) => none
  | fuel + 1, s, none, v :: xs => forwardAux S (fuel + 1) s (some v) xs
termination_by fuel _ _ xs => (fuel, xs.length)

/-- The `forward` one-shot: drive a stream (list) fully into a sink,
starting with no pulled item pending. -/
def forward (S : Sink σ ι ε) (fuel : Nat) (s : σ) (xs : List ι) : Option σ :=
  forwardAux S fuel s none xs

/-- Repeatedly retry `start_send` of a single item under backpressure,
with a poll budget. -/
def iterSend (S : Sink σ ι ε) : Nat → σ → ι → σ × SendRes ε
  | 0, s, _ => (s, .rejected)
  | fuel + 1, s, v =>
    match S.start_send s v with
    | (s', .accepted) => (s', .accepted)
    | (s', .rejected) => iterSend S fuel s' v
    | (s', .error e) => (s', .error e)

/-- Call `start_send` once per item of a list (no retries), collecting
the per-item results. -/
def sendEach (S : Sink σ ι ε) : List ι → σ → σ × List (SendRes ε)
  | [], s => (s, [])
  | v :: vs, s =>
    match S.start_send s v with
    | (s', r) =>
      match sendEach S vs s' with
      | (s'', rs) => (s'', r :: rs)

/-! ## Behavioural predicates -/

/-- Once a sink has reported flushed, flushing again returns `Ready`
immediately and leaves the state unchanged (no duplicate side effects). -/
def FlushIdem (S : Sink σ ι ε) : Prop :=
  ∀ s s', S.poll_flush s = (s', .ready) → S.poll_flush s' = (s', .ready)

/-- Once a sink has reported closed, closing again returns `Ready`
immediately and leaves the state unchanged. -/
def CloseIdem (S : Sink σ ι ε) : Prop :=
  ∀ s s', S.poll_close s = (s', .ready) → S.poll_close s' = (s', .ready)

/-- From state `s`, every operation reports exactly the error `e` and
makes no further progress. -/
def Errs (S : Sink σ ι ε) (s : σ) (e : ε) : Prop :=
  (∀ v, S.start_send s v = (s, .error e)) ∧
  S.poll_flush s = (s, .error e) ∧ S.poll_close s = (s, .error e)

/-- Once any operation of the sink reports an error, every subsequent
operation reports that same error and the sink never resumes. -/
def Sticky (S : Sink σ ι ε) : Prop :=
  (∀ s v s' e, S.start_send s v = (s', .error e) → Errs S s' e) ∧
  (∀ s s' e, S.poll_flush s = (s', .error e) → Errs S s' e) ∧
  (∀ s s' e, S.poll_close s = (s', .error e) → Errs S s' e)

/-! ## Compositional order-preservation framework

To settle the quantification over arbitrary adapter stacks, each sink is
packaged with an accounting interface: `den` maps an input sequence to
the per-leaf sequences it must eventually produce, `FO` ("future
output") maps a state to the per-leaf sequences already recorded plus
those of the items currently in flight inside the stack, `Rec` projects
the per-leaf recordings, `held` reports an item that the sink has
partially processed while reporting rejection (Fanout), and `WF` is the
coherence invariant tying those together. -/

def zipApp (a b : List (List Nat)) : List (List Nat) :=
  List.zipWith (· ++ ·) a b

/-- Keep only the `ok` elements of a sub-stream. -/
def oks : List (Except Nat Nat) → List Nat
  | [] => []
  | .ok v :: tl => v :: oks tl
  | .error _ :: tl => oks tl

structure GoodSink where
  σ : Type
  S : Sink σ Nat Nat
  den : List Nat → List (List Nat)
  FO : σ → List (List Nat)
  Rec : σ → List (List Nat)
  held : σ → Option Nat
  WF : σ → Prop

/-- Contract of one `start_send` transition for the accounting
interface. -/
def SendConc (G : GoodSink) (s s' : G.σ) (v : Nat) : SendRes Nat → Prop
  | .accepted =>
      G.WF s' ∧ (G.held s').isNone = true ∧
      (if (G.held s).isSome = true then G.FO s' = G.FO s
        else G.FO s' = zipApp (G.FO s) (G.den [v]))
  | .rejected =>
      G.WF s' ∧
      ((G.FO s' = G.FO s ∧ G.held s' = G.held s) ∨
        ((G.held s).isNone = true ∧ G.FO s' = zipApp (G.FO s) (G.den [v]) ∧
          G.held s' = some v))
  | .error _ => True

/-- Contract of one `poll_flush` transition for the accounting
interface (only invoked while no item is partially held). -/
def FlushConc (G : GoodSink) (s s' : G.σ) : PollRes Nat → Prop
  | .pending => G.WF s' ∧ G.FO s' = G.FO s ∧ (G.held s').isNone = true
  | .ready => G.WF s' ∧ G.FO s' = G.FO s ∧ (G.held s').isNone = true ∧
      G.FO s' = G.Rec s'
  | .error _ => True

/-- The laws every adapter combinator preserves: `den` is a leafwise
monoid morphism and the two polling operations respect the accounting
contract. -/
structure Laws (G : GoodSink) : Prop where
  den_app : ∀ xs ys, G.den (xs ++ ys) = zipApp (G.den xs) (G.den ys)
  den_len : ∀ xs, (G.den xs).length = (G.den []).length
  den_nil : G.den [] = List.replicate (G.den []).length []
  FO_len : ∀ s, (G.FO s).length = (G.den []).length
  send_law : ∀ s v s' res, G.WF s → G.S.start_send s v = (s', res) →
    SendConc G s s' v res
  flush_law : ∀ s s' res, G.WF s → G.held s = none →
    G.S.poll_flush s = (s', res) → FlushConc G s s' res

/-- The recording base sink packaged with its accounting interface. -/
def recGood : GoodSink where
  σ := RecSt Nat
  S := recSink Nat
  den := fun xs => [xs]
  FO := fun s => [s.recorded]
  Rec := fun s => [s.recorded]
  held := fun _ => none
  WF := fun _ => True

/-- Queue contribution of a Buffer state: the head is omitted while the
inner sink partially holds it. -/
def effBuf (G : GoodSink) (s : G.σ) (q : List Nat) : List Nat :=
  if (G.held s).isSome then q.drop 1 else q

/-- The Buffer adapter on the accounting interface. -/
def bufGood (G : GoodSink) (cap : Nat) : GoodSink where
  σ := Buffer G.σ Nat Nat
  S := buffer G.S cap
  den := G.den
  FO := fun b => zipApp (G.FO b.sink) (G.den (effBuf G b.sink b.buf))
  Rec := fun b => G.Rec b.sink
  held := fun b => if cap = 0 then G.held b.sink else none
  WF := fun b => b.err.isSome = true ∨
    (G.WF b.sink ∧ b.buf.length ≤ cap ∧
      ((G.held b.sink).isSome = true →
        cap = 0 ∨ ∃ v t, b.buf = v :: t ∧ G.held b.sink = some v))

/-- Pending contribution of a With slot. -/
def wContrib (G : GoodSink) (s : G.σ) : WSlot Nat Nat → List Nat
  | .empty => []
  | .conv _ (.ok v) => [v]
  | .conv _ (.error _) => []
  | .buffered v => if (G.held s).isSome then [] else [v]

/-- The With adapter on the accounting interface (delays `d`, pure
conversion `f`). -/
def withGood (G : GoodSink) (d f : Nat → Nat) : GoodSink where
  σ := With G.σ Nat Nat
  S := withSink G.S id (fun u => (d u, .ok (f u)))
  den := fun xs => G.den (xs.map f)
  FO := fun w => zipApp (G.FO w.sink) (G.den (wContrib G w.sink w.slot))
  Rec := fun w => G.Rec w.sink
  held := fun _ => none
  WF := fun w => w.err.isSome = true ∨
    (G.WF w.sink ∧
      ((G.held w.sink).isSome = true →
        ∃ v, w.slot = .buffered v ∧ G.held w.sink = some v))

/-- The WithFlatMap adapter on the accounting interface (pure expansion
`f`). -/
def fmGood (G : GoodSink) (f : Nat → List Nat) : GoodSink where
  σ := WithFlatMap G.σ Nat Nat
  S := withFlatMap G.S (fun u => (f u).map .ok)
  den := fun xs => G.den (xs.flatMap f)
  FO := fun m => zipApp (G.FO m.sink)
    (G.den ((if (G.held m.sink).isSome then [] else m.buffered.toList) ++ oks m.stm))
  Rec := fun m => G.Rec m.sink
  held := fun _ => none
  WF := fun m => m.err.isSome = true ∨
    (G.WF m.sink ∧
      ((G.held m.sink).isSome = true →
        ∃ v, m.buffered = some v ∧ G.held m.sink = some v))

/-- Pending contribution of one Fanout side. -/
def fanContrib (G : GoodSink) (s : G.σ) (b : Bool) (w : Nat) : List Nat :=
  if b then [] else if (G.held s).isSome then [] else [w]

/-- The Fanout adapter on the accounting interface. -/
def fanGood (G₁ G₂ : GoodSink) : GoodSink where
  σ := Fanout G₁.σ G₂.σ Nat Nat
  S := fanout G₁.S G₂.S
  den := fun xs => G₁.den xs ++ G₂.den xs
  FO := fun t =>
    match t.slot with
    | none => zipApp (G₁.FO t.sink1) (G₁.den []) ++ zipApp (G₂.FO t.sink2) (G₂.den [])
    | some (w, b1, b2) =>
        zipApp (G₁.FO t.sink1) (G₁.den (fanContrib G₁ t.sink1 b1 w)) ++
        zipApp (G₂.FO t.sink2) (G₂.den (fanContrib G₂ t.sink2 b2 w))
  Rec := fun t => G₁.Rec t.sink1 ++ G₂.Rec t.sink2
  held := fun t => t.slot.map (·.1)
  WF := fun t => t.err.isSome = true ∨
    (G₁.WF t.sink1 ∧ G₂.WF t.sink2 ∧
      match t.slot with
      | none => (G₁.held t.sink1).isNone = true ∧ (G₂.held t.sink2).isNone = true
      | some (w, b1, b2) =>
          ¬(b1 = true ∧ b2 = true) ∧
          (b1 = true → (G₁.held t.sink1).isNone = true) ∧
          (b2 = true → (G₂.held t.sink2).isNone = true) ∧
          ((G₁.held t.sink1).isSome = true → G₁.held t.sink1 = some w) ∧
          ((G₂.held t.sink2).isSome = true → G₂.held t.sink2 = some w))

/-- Initial profile of a recording leaf sink: acceptance budget,
initial backpressure delay, and an optional failure index. -/
structure RProfile where
  budget : Option Nat := none
  delay : Nat := 0
  errAt : Option Nat := none

/-- An arbitrary adapter stack over recording leaf sinks, built from the
four stateful `SinkExt` combinators. -/
inductive Stack where
  | base (p : RProfile)
  | buffer (cap : Nat) (rest : Stack)
  | withF (d f : Nat → Nat) (rest : Stack)
  | flatMap (f : Nat → List Nat) (rest : Stack)
  | fanout (l r : Stack)

/-- Interpret a stack as a sink with its accounting interface. -/
def Stack.toGood : Stack → GoodSink
  | .base _ => recGood
  | .buffer cap r => bufGood r.toGood cap
  | .withF d f r => withGood r.toGood d f
  | .flatMap f r => fmGood r.toGood f
  | .fanout l r => fanGood l.toGood r.toGood

/-- The freshly composed state of a stack. -/
def Stack.init : (st : Stack) → st.toGood.σ
  | .base p => { budget := p.budget, delay := p.delay, errAt := p.errAt }
  | .buffer _ r => { sink := r.init }
  | .withF _ _ r => { sink := r.init }
  | .flatMap _ r => { sink := r.init }
  | .fanout l r => { sink1 := l.init, sink2 := r.init }

/-- Whether a stack only forwards items unchanged (no With/WithFlatMap
transformation layer). -/
def Stack.isPure : Stack → Bool
  | .base _ => true
  | .buffer _ r => r.isPure
  | .withF _ _ _ => false
  | .flatMap _ _ => false
  | .fanout l r => l.isPure && r.isPure

/-- Helper for C5: an always-ready recording sink absorbs a whole list in
`length + 1` polls, recording it in order, ending flushed and not closed. -/
theorem sendAll_rec (xs : List Nat) :
    ∀ (rec : List Nat) (dirt cl : Bool),
      sendAll (recSink Nat) (xs.length + 1)
        ⟨rec, none, 0, none, none, dirt, cl⟩ xs
        = some ⟨rec ++ xs, none, 0, none, none, false, cl⟩ := by
  induction xs with
  | nil =>
      intro rec dirt cl
      simp [sendAll, recSink, recFlush]
  | cons v vs ih =>
      intro rec dirt cl
      simp only [List.length_cons]
      show sendAll (recSink Nat) (vs.length + 1 + 1) _ (v :: vs) = _
      rw [show (vs.length + 1 + 1) = (vs.length + 1) + 1 from rfl]
      simp only [sendAll, recSink, recSend]
      simpa [List.append_assoc] using ih (rec ++ [v]) true cl

/-- C5: the `send_all` operation drives every item of the finite stream
into the sink in order, completes only once the stream is exhausted and
the sink flushed, and does not close the sink: for an always-ready
recording sink the driver terminates with exactly the input recorded in
order, the sink flushed (`dirty = false`) and not closed
(`closed = false`). -/
theorem sendAll_complete (xs : List Nat) :
    sendAll (recSink Nat) (xs.length + 1)
        ⟨[], none, 0, none, none, false, false⟩ xs
      = some ⟨xs, none, 0, none, none, false, false⟩ := by
  simpa using sendAll_rec xs [] false false

theorem forwardAux_eq_sendAll (S : Sink σ ι ε) :
    ∀ (fuel : Nat) (s : σ) (buf : Option ι) (xs : List ι),
      forwardAux S fuel s buf xs
        = sendAll S fuel s (match buf with | some v => v :: xs | none => xs) := by
  intro fuel
  induction fuel with
  | zero =>
      intro s buf xs
      cases buf <;> simp [forwardAux, sendAll]
  | succ f ih =>
      have hsome : ∀ (s : σ) (v : ι) (xs : List ι),
          forwardAux S (f + 1) s (some v) xs = sendAll S (f + 1) s (v :: xs) := by
        intro s v xs
        rw [forwardAux, sendAll]
        rcases h : S.start_send s v with ⟨s', r⟩
        cases r <;> simp [ih]
      intro s buf xs
      match buf, xs with
      | some v, xs => exact hsome s v xs
      | none, [] =>
        rw [forwardAux, sendAll]
        rcases h : S.poll_flush s with ⟨s', r⟩
        cases r <;> simp [ih]
      | none, v :: xs =>
        have h1 : forwardAux S (f + 1) s none (v :: xs)
            = forwardAux S (f + 1) s (some v) xs := by
          conv_lhs => rw [forwardAux]
        rw [h1]
        exact hsome s v xs

/-- C9: driving a stream into a sink via the sink-side `send_all`
operation and via the stream-side `forward` operation is the same
operation: for every sink, fuel, initial state and stream, the two
drivers produce identical results (hence identical items delivered,
identical order, identical flush semantics). -/
theorem forward_eq_sendAll (S : Sink σ ι ε) (fuel : Nat) (s : σ)
    (xs : List ι) : forward S fuel s xs = sendAll S fuel s xs :=
  forwardAux_eq_sendAll S fuel s none xs

/-! ## Idempotence of flush and close (C7) -/

theorem recFlushIdem (ι : Type) : FlushIdem (recSink ι) := by
  intro s s' h
  obtain ⟨rec, bud, del, ea, fa, di, cl⟩ := s
  cases fa with
  | some e => simp [recSink, recFlush] at h
  | none =>
      simp only [recSink, recFlush, Prod.mk.injEq, and_true] at h
      subst h
      rfl

theorem recCloseIdem (ι : Type) : CloseIdem (recSink ι) := by
  intro s s' h
  obtain ⟨rec, bud, del, ea, fa, di, cl⟩ := s
  cases fa with
  | some e => simp [recSink, recClose] at h
  | none =>
      simp only [recSink, recClose, Prod.mk.injEq, and_true] at h
      subst h
      rfl

theorem bufFlushIdem (S : Sink σ ι ε) (cap : Nat) (hS : FlushIdem S) :
    FlushIdem (buffer S cap) := by
  intro b b' h
  obtain ⟨sk, q, er⟩ := b
  show bufFlush S b' = (b', .ready)
  replace h : bufFlush S ⟨sk, q, er⟩ = (b', .ready) := h
  unfold bufFlush at h
  cases er with
  | some e => simp at h
  | none =>
      simp only at h
      rcases hte : tryEmpty S q sk with ⟨s1, q1, eo⟩
      rw [hte] at h
      cases eo with
      | some e => simp at h
      | none =>
          cases q1 with
          | cons w t => simp at h
          | nil =>
              simp only at h
              rcases hf : S.poll_flush s1 with ⟨s2, r⟩
              rw [hf] at h
              cases r with
              | pending => simp at h
              | error e => simp at h
              | ready =>
                  simp only [Prod.mk.injEq] at h
                  obtain ⟨rfl, -⟩ := h
                  unfold bufFlush
                  simp only [tryEmpty]
                  rw [hS s1 s2 hf]

theorem bufCloseIdem (S : Sink σ ι ε) (cap : Nat) (hS : CloseIdem S) :
    CloseIdem (buffer S cap) := by
  intro b b' h
  obtain ⟨sk, q, er⟩ := b
  show bufClose S b' = (b', .ready)
  replace h : bufClose S ⟨sk, q, er⟩ = (b', .ready) := h
  unfold bufClose at h
  cases er with
  | some e => simp at h
  | none =>
      simp only at h
      rcases hte : tryEmpty S q sk with ⟨s1, q1, eo⟩
      rw [hte] at h
      cases eo with
      | some e => simp at h
      | none =>
          cases q1 with
          | cons w t => simp at h
          | nil =>
              simp only at h
              rcases hf : S.poll_close s1 with ⟨s2, r⟩
              rw [hf] at h
              cases r with
              | pending => simp at h
              | error e => simp at h
              | ready =>
                  simp only [Prod.mk.injEq] at h
                  obtain ⟨rfl, -⟩ := h
                  unfold bufClose
                  simp only [tryEmpty]
                  rw [hS s1 s2 hf]

theorem withFlushIdem (S : Sink σ ι ε) (g : ε → ε')
    (f : υ → Nat × Except ε' ι) (hS : FlushIdem S) :
    FlushIdem (withSink S g f) := by
  intro w w' h
  show withFlush S g w' = (w', .ready)
  replace h : withFlush S g w = (w', .ready) := h
  unfold withFlush at h
  cases hw : w.err with
  | some e => rw [hw] at h; simp at h
  | none =>
      rw [hw] at h
      simp only at h
      cases hw1 : (wdrive S g w).err with
      | some e => rw [hw1] at h; simp at h
      | none =>
          rw [hw1] at h
          cases hsl : (wdrive S g w).slot with
          | empty =>
              rw [hsl] at h
              simp only at h
              rcases hf : S.poll_flush (wdrive S g w).sink with ⟨s2, r⟩
              rw [hf] at h
              cases r with
              | pending => simp at h
              | error e => simp at h
              | ready =>
                  simp only [Prod.mk.injEq] at h
                  obtain ⟨rfl, -⟩ := h
                  unfold withFlush
                  simp only [hw1, hsl, wdrive]
                  rw [hS _ _ hf]
          | conv d r => rw [hsl] at h; simp at h
          | buffered v => rw [hsl] at h; simp at h

theorem withCloseIdem (S : Sink σ ι ε) (g : ε → ε')
    (f : υ → Nat × Except ε' ι) (hS : CloseIdem S) :
    CloseIdem (withSink S g f) := by
  intro w w' h
  show withClose S g w' = (w', .ready)
  replace h : withClose S g w = (w', .ready) := h
  unfold withClose at h
  cases hw : w.err with
  | some e => rw [hw] at h; simp at h
  | none =>
      rw [hw] at h
      simp only at h
      cases hw1 : (wdrive S g w).err with
      | some e => rw [hw1] at h; simp at h
      | none =>
          rw [hw1] at h
          cases hsl : (wdrive S g w).slot with
          | empty =>
              rw [hsl] at h
              simp only at h
              rcases hf : S.poll_close (wdrive S g w).sink with ⟨s2, r⟩
              rw [hf] at h
              cases r with
              | pending => simp at h
              | error e => simp at h
              | ready =>
                  simp only [Prod.mk.injEq] at h
                  obtain ⟨rfl, -⟩ := h
                  unfold withClose
                  simp only [hw1, hsl, wdrive]
                  rw [hS _ _ hf]
          | conv d r => rw [hsl] at h; simp at h
          | buffered v => rw [hsl] at h; simp at h

theorem fmFlushIdem (S : Sink σ ι ε) (f : υ → List (Except ε ι))
    (hS : FlushIdem S) : FlushIdem (withFlatMap S f) := by
  intro m m' h
  show fmFlush S m' = (m', .ready)
  replace h : fmFlush S m = (m', .ready) := h
  unfold fmFlush at h
  cases hm : m.err with
  | some e => rw [hm] at h; simp at h
  | none =>
      rw [hm] at h
      simp only at h
      cases hm1 : (fmDrive S m).err with
      | some e => rw [hm1] at h; simp at h
      | none =>
          rw [hm1] at h
          cases hb : (fmDrive S m).buffered with
          | some v => rw [hb] at h; simp at h
          | none =>
              rw [hb] at h
              cases ht : (fmDrive S m).stm with
              | cons x tl => rw [ht] at h; simp at h
              | nil =>
                  rw [ht] at h
                  simp only at h
                  rcases hf : S.poll_flush (fmDrive S m).sink with ⟨s2, r⟩
                  rw [hf] at h
                  cases r with
                  | pending => simp at h
                  | error e => simp at h
                  | ready =>
                      simp only [Prod.mk.injEq] at h
                      obtain ⟨rfl, -⟩ := h
                      unfold fmFlush
                      simp only [hm1, hb, ht, fmDrive, fmDrain]
                      rw [hS _ _ hf]

theorem fmCloseIdem (S : Sink σ ι ε) (f : υ → List (Except ε ι))
    (hS : CloseIdem S) : CloseIdem (withFlatMap S f) := by
  intro m m' h
  show fmClose S m' = (m', .ready)
  replace h : fmClose S m = (m', .ready) := h
  unfold fmClose at h
  cases hm : m.err with
  | some e => rw [hm] at h; simp at h
  | none =>
      rw [hm] at h
      simp only at h
      cases hm1 : (fmDrive S m).err with
      | some e => rw [hm1] at h; simp at h
      | none =>
          rw [hm1] at h
          cases hb : (fmDrive S m).buffered with
          | some v => rw [hb] at h; simp at h
          | none =>
              rw [hb] at h
              cases ht : (fmDrive S m).stm with
              | cons x tl => rw [ht] at h; simp at h
              | nil =>
                  rw [ht] at h
                  simp only at h
                  rcases hf : S.poll_close (fmDrive S m).sink with ⟨s2, r⟩
                  rw [hf] at h
                  cases r with
                  | pending => simp at h
                  | error e => simp at h
                  | ready =>
                      simp only [Prod.mk.injEq] at h
                      obtain ⟨rfl, -⟩ := h
                      unfold fmClose
                      simp only [hm1, hb, ht, fmDrive, fmDrain]
                      rw [hS _ _ hf]

theorem fanFlushIdem (S₁ : Sink σ₁ ι ε) (S₂ : Sink σ₂ ι ε)
    (h₁ : FlushIdem S₁) (h₂ : FlushIdem S₂) : FlushIdem (fanout S₁ S₂) := by
  intro t t' h
  obtain ⟨sk1, sk2, sl, er⟩ := t
  show fanFlush S₁ S₂ t' = (t', .ready)
  replace h : fanFlush S₁ S₂ ⟨sk1, sk2, sl, er⟩ = (t', .ready) := h
  unfold fanFlush at h
  cases er with
  | some e => simp at h
  | none =>
      cases sl with
      | some p =>
          obtain ⟨w, a1, a2⟩ := p
          simp only at h
          rcases ht1 : fanTry S₁ a1 sk1 w with ⟨s1', b1, e1⟩
          rw [ht1] at h
          rcases ht2 : fanTry S₂ a2 sk2 w with ⟨s2', b2, e2⟩
          rw [ht2] at h
          cases e1 with
          | some e => simp at h
          | none =>
              cases e2 with
              | some e => simp at h
              | none => by_cases hb : (b1 && b2) = true <;> simp [hb] at h
      | none =>
          rcases hf1 : S₁.poll_flush sk1 with ⟨s1', r1⟩
          rw [hf1] at h
          rcases hf2 : S₂.poll_flush sk2 with ⟨s2', r2⟩
          rw [hf2] at h
          cases r1 with
          | error e => simp at h
          | pending => cases r2 <;> simp at h
          | ready =>
              cases r2 with
              | error e => simp at h
              | pending => simp at h
              | ready =>
                  simp only [Prod.mk.injEq] at h
                  obtain ⟨rfl, -⟩ := h
                  simp [fanFlush, h₁ _ _ hf1, h₂ _ _ hf2]

theorem fanCloseIdem (S₁ : Sink σ₁ ι ε) (S₂ : Sink σ₂ ι ε)
    (h₁ : CloseIdem S₁) (h₂ : CloseIdem S₂) : CloseIdem (fanout S₁ S₂) := by
  intro t t' h
  obtain ⟨sk1, sk2, sl, er⟩ := t
  show fanClose S₁ S₂ t' = (t', .ready)
  replace h : fanClose S₁ S₂ ⟨sk1, sk2, sl, er⟩ = (t', .ready) := h
  unfold fanClose at h
  cases er with
  | some e => simp at h
  | none =>
      cases sl with
      | some p =>
          obtain ⟨w, a1, a2⟩ := p
          simp only at h
          rcases ht1 : fanTry S₁ a1 sk1 w with ⟨s1', b1, e1⟩
          rw [ht1] at h
          rcases ht2 : fanTry S₂ a2 sk2 w with ⟨s2', b2, e2⟩
          rw [ht2] at h
          cases e1 with
          | some e => simp at h
          | none =>
              cases e2 with
              | some e => simp at h
              | none => by_cases hb : (b1 && b2) = true <;> simp [hb] at h
      | none =>
          rcases hf1 : S₁.poll_close sk1 with ⟨s1', r1⟩
          rw [hf1] at h
          rcases hf2 : S₂.poll_close sk2 with ⟨s2', r2⟩
          rw [hf2] at h
          cases r1 with
          | error e => simp at h
          | pending => cases r2 <;> simp at h
          | ready =>
              cases r2 with
              | error e => simp at h
              | pending => simp at h
              | ready =>
                  simp only [Prod.mk.injEq] at h
                  obtain ⟨rfl, -⟩ := h
                  simp [fanClose, h₁ _ _ hf1, h₂ _ _ hf2]

/-- C7: `poll_flush` and `poll_close` are idempotent once completed: for
the recording sink, for every adapter over any inner sink with the
property, and hence for every adapter stack, a sink that has reported
flushed (closed) returns `Ready` again immediately with an unchanged
state — no duplicate side effects on the underlying destination. -/
theorem flush_close_idempotent :
    (∀ (ι : Type), FlushIdem (recSink ι) ∧ CloseIdem (recSink ι)) ∧
    (∀ (σ ι ε : Type) (S : Sink σ ι ε) (cap : Nat),
      (FlushIdem S → FlushIdem (buffer S cap)) ∧
      (CloseIdem S → CloseIdem (buffer S cap))) ∧
    (∀ (σ ι ε ε' υ : Type) (S : Sink σ ι ε) (g : ε → ε')
        (f : υ → Nat × Except ε' ι),
      (FlushIdem S → FlushIdem (withSink S g f)) ∧
      (CloseIdem S → CloseIdem (withSink S g f))) ∧
    (∀ (σ ι ε υ : Type) (S : Sink σ ι ε) (f : υ → List (Except ε ι)),
      (FlushIdem S → FlushIdem (withFlatMap S f)) ∧
      (CloseIdem S → CloseIdem (withFlatMap S f))) ∧
    (∀ (σ₁ σ₂ ι ε : Type) (S₁ : Sink σ₁ ι ε) (S₂ : Sink σ₂ ι ε),
      (FlushIdem S₁ → FlushIdem S₂ → FlushIdem (fanout S₁ S₂)) ∧
      (CloseIdem S₁ → CloseIdem S₂ → CloseIdem (fanout S₁ S₂))) ∧
    (∀ st : Stack, FlushIdem st.toGood.S ∧ CloseIdem st.toGood.S) := by
  refine ⟨fun ι => ⟨recFlushIdem ι, recCloseIdem ι⟩,
    fun σ ι ε S cap => ⟨bufFlushIdem S cap, bufCloseIdem S cap⟩,
    fun σ ι ε ε' υ S g f => ⟨withFlushIdem S g f, withCloseIdem S g f⟩,
    fun σ ι ε υ S f => ⟨fmFlushIdem S f, fmCloseIdem S f⟩,
    fun σ₁ σ₂ ι ε S₁ S₂ => ⟨fanFlushIdem S₁ S₂, fanCloseIdem S₁ S₂⟩, ?_⟩
  intro st
  induction st with
  | base p => exact ⟨recFlushIdem Nat, recCloseIdem Nat⟩
  | buffer cap r ih =>
      exact ⟨bufFlushIdem r.toGood.S cap ih.1, bufCloseIdem r.toGood.S cap ih.2⟩
  | withF d f r ih =>
      exact ⟨withFlushIdem r.toGood.S id _ ih.1, withCloseIdem r.toGood.S id _ ih.2⟩
  | flatMap f r ih =>
      exact ⟨fmFlushIdem r.toGood.S _ ih.1, fmCloseIdem r.toGood.S _ ih.2⟩
  | fanout l r ihl ihr =>
      exact ⟨fanFlushIdem l.toGood.S r.toGood.S ihl.1 ihr.1,
        fanCloseIdem l.toGood.S r.toGood.S ihl.2 ihr.2⟩

/-- Witness for C7: a concrete recording-sink state reports flushed, and
applying the theorem shows the second flush returns `Ready` at the very
same state. -/
theorem flush_close_idempotent_witness :
    (recSink Nat).poll_flush ⟨[3], none, 0, none, none, false, false⟩
      = (⟨[3], none, 0, none, none, false, false⟩, .ready) :=
  (flush_close_idempotent.1 Nat).1
    ⟨[3], none, 0, none, none, true, false⟩
    ⟨[3], none, 0, none, none, false, false⟩ (by rfl)

/-! ## Error propagation (C6): errors are latched and never retried -/

theorem recErrs (s : RecSt ι) (e : Nat) (h : s.failed = some e) :
    Errs (recSink ι) s e := by
  refine ⟨fun v => ?_, ?_, ?_⟩
  · show recSend s v = (s, .error e)
    unfold recSend
    rw [h]
  · show recFlush s = (s, .error e)
    unfold recFlush
    rw [h]
  · show recClose s = (s, .error e)
    unfold recClose
    rw [h]

theorem recSendErr (s : RecSt ι) (v : ι) (s' : RecSt ι) (e : Nat)
    (h : recSend s v = (s', .error e)) : s'.failed = some e := by
  unfold recSend at h
  split at h
  next e0 heq =>
    simp only [Prod.mk.injEq, SendRes.error.injEq] at h
    obtain ⟨h1, rfl⟩ := h
    rw [← h1]; exact heq
  next heq =>
    split at h
    · simp only [Prod.mk.injEq, SendRes.error.injEq] at h
      obtain ⟨h1, rfl⟩ := h
      rw [← h1]
    · split at h
      · simp at h
      · split at h <;> simp at h

theorem recPollErr (s : RecSt ι) (s' : RecSt ι) (e : Nat)
    (hf : recFlush s = (s', .error e) ∨ recClose s = (s', .error e)) :
    s'.failed = some e := by
  rcases hf with h | h
  · unfold recFlush at h
    split at h
    next e0 heq =>
      simp only [Prod.mk.injEq, PollRes.error.injEq] at h
      obtain ⟨h1, rfl⟩ := h
      rw [← h1]; exact heq
    next heq => simp at h
  · unfold recClose at h
    split at h
    next e0 heq =>
      simp only [Prod.mk.injEq, PollRes.error.injEq] at h
      obtain ⟨h1, rfl⟩ := h
      rw [← h1]; exact heq
    next heq => simp at h

theorem recSticky (ι : Type) : Sticky (recSink ι) :=
  ⟨fun _ v s' e h => recErrs s' e (recSendErr _ v s' e h),
   fun _ s' e h => recErrs s' e (recPollErr _ s' e (Or.inl h)),
   fun _ s' e h => recErrs s' e (recPollErr _ s' e (Or.inr h))⟩

theorem bufErrs (S : Sink σ ι ε) (cap : Nat) (b : Buffer σ ι ε) (e : ε)
    (h : b.err = some e) : Errs (buffer S cap) b e := by
  refine ⟨fun v => ?_, ?_, ?_⟩
  · show bufSend S cap b v = (b, .error e)
    unfold bufSend
    rw [h]
  · show bufFlush S b = (b, .error e)
    unfold bufFlush
    rw [h]
  · show bufClose S b = (b, .error e)
    unfold bufClose
    rw [h]

theorem bufSendErr (S : Sink σ ι ε) (cap : Nat) (b : Buffer σ ι ε) (v : ι)
    (b' : Buffer σ ι ε) (e : ε)
    (h : bufSend S cap b v = (b', .error e)) : b'.err = some e := by
  unfold bufSend at h
  split at h
  next e0 heq =>
    simp only [Prod.mk.injEq, SendRes.error.injEq] at h
    obtain ⟨h1, rfl⟩ := h
    rw [← h1]; exact heq
  next heq =>
    split at h
    · split at h
      · simp at h
      · simp at h
      · simp only [Prod.mk.injEq, SendRes.error.injEq] at h
        obtain ⟨h1, rfl⟩ := h
        rw [← h1]
    · split at h
      · simp only [Prod.mk.injEq, SendRes.error.injEq] at h
        obtain ⟨h1, rfl⟩ := h
        rw [← h1]
      · split at h <;> simp at h

theorem bufFlushErr (S : Sink σ ι ε) (b : Buffer σ ι ε)
    (b' : Buffer σ ι ε) (e : ε)
    (h : bufFlush S b = (b', .error e)) : b'.err = some e := by
  unfold bufFlush at h
  split at h
  next e0 heq =>
    simp only [Prod.mk.injEq, PollRes.error.injEq] at h
    obtain ⟨h1, rfl⟩ := h
    rw [← h1]; exact heq
  next heq =>
    split at h
    · simp only [Prod.mk.injEq, PollRes.error.injEq] at h
      obtain ⟨h1, rfl⟩ := h
      rw [← h1]
    · split at h
      · simp at h
      · split at h
        · simp at h
        · simp at h
        · simp only [Prod.mk.injEq, PollRes.error.injEq] at h
          obtain ⟨h1, rfl⟩ := h
          rw [← h1]

theorem bufCloseErr (S : Sink σ ι ε) (b : Buffer σ ι ε)
    (b' : Buffer σ ι ε) (e : ε)
    (h : bufClose S b = (b', .error e)) : b'.err = some e := by
  unfold bufClose at h
  split at h
  next e0 heq =>
    simp only [Prod.mk.injEq, PollRes.error.injEq] at h
    obtain ⟨h1, rfl⟩ := h
    rw [← h1]; exact heq
  next heq =>
    split at h
    · simp only [Prod.mk.injEq, PollRes.error.injEq] at h
      obtain ⟨h1, rfl⟩ := h
      rw [← h1]
    · split at h
      · simp at h
      · split at h
        · simp at h
        · simp at h
        · simp only [Prod.mk.injEq, PollRes.error.injEq] at h
          obtain ⟨h1, rfl⟩ := h
          rw [← h1]

theorem bufSticky (S : Sink σ ι ε) (cap : Nat) : Sticky (buffer S cap) :=
  ⟨fun _ v s' e h => bufErrs S cap s' e (bufSendErr S cap _ v s' e h),
   fun _ s' e h => bufErrs S cap s' e (bufFlushErr S _ s' e h),
   fun _ s' e h => bufErrs S cap s' e (bufCloseErr S _ s' e h)⟩

theorem withErrs (S : Sink σ ι ε) (g : ε → ε') (f : υ → Nat × Except ε' ι)
    (w : With σ ι ε') (e : ε') (h : w.err = some e) :
    Errs (withSink S g f) w e := by
  refine ⟨fun v => ?_, ?_, ?_⟩
  · show withSend S g f w v = (w, .error e)
    unfold withSend
    rw [h]
  · show withFlush S g w = (w, .error e)
    unfold withFlush
    rw [h]
  · show withClose S g w = (w, .error e)
    unfold withClose
    rw [h]

theorem withSendErr (S : Sink σ ι ε) (g : ε → ε') (f : υ → Nat × Except ε' ι)
    (w : With σ ι ε') (u : υ) (w' : With σ ι ε') (e : ε')
    (h : withSend S g f w u = (w', .error e)) : w'.err = some e := by
  unfold withSend at h
  split at h
  next e0 heq =>
    simp only [Prod.mk.injEq, SendRes.error.injEq] at h
    obtain ⟨h1, rfl⟩ := h
    rw [← h1]; exact heq
  next heq =>
    simp only at h
    split at h
    next e0 heq1 =>
      simp only [Prod.mk.injEq, SendRes.error.injEq] at h
      obtain ⟨h1, rfl⟩ := h
      rw [← h1]; exact heq1
    next heq1 =>
      split at h <;> simp at h

theorem withFlushErr (S : Sink σ ι ε) (g : ε → ε')
    (w : With σ ι ε') (w' : With σ ι ε') (e : ε')
    (h : withFlush S g w = (w', .error e)) : w'.err = some e := by
  unfold withFlush at h
  split at h
  next e0 heq =>
    simp only [Prod.mk.injEq, PollRes.error.injEq] at h
    obtain ⟨h1, rfl⟩ := h
    rw [← h1]; exact heq
  next heq =>
    simp only at h
    split at h
    next e0 heq1 =>
      simp only [Prod.mk.injEq, PollRes.error.injEq] at h
      obtain ⟨h1, rfl⟩ := h
      rw [← h1]; exact heq1
    next heq1 =>
      split at h
      · split at h
        · simp at h
        · simp at h
        · simp only [Prod.mk.injEq, PollRes.error.injEq] at h
          obtain ⟨h1, rfl⟩ := h
          rw [← h1]
      · simp at h

theorem withCloseErr (S : Sink σ ι ε) (g : ε → ε')
    (w : With σ ι ε') (w' : With σ ι ε') (e : ε')
    (h : withClose S g w = (w', .error e)) : w'.err = some e := by
  unfold withClose at h
  split at h
  next e0 heq =>
    simp only [Prod.mk.injEq, PollRes.error.injEq] at h
    obtain ⟨h1, rfl⟩ := h
    rw [← h1]; exact heq
  next heq =>
    simp only at h
    split at h
    next e0 heq1 =>
      simp only [Prod.mk.injEq, PollRes.error.injEq] at h
      obtain ⟨h1, rfl⟩ := h
      rw [← h1]; exact heq1
    next heq1 =>
      split at h
      · split at h
        · simp at h
        · simp at h
        · simp only [Prod.mk.injEq, PollRes.error.injEq] at h
          obtain ⟨h1, rfl⟩ := h
          rw [← h1]
      · simp at h

theorem withSticky (S : Sink σ ι ε) (g : ε → ε')
    (f : υ → Nat × Except ε' ι) : Sticky (withSink S g f) :=
  ⟨fun _ v s' e h => withErrs S g f s' e (withSendErr S g f _ v s' e h),
   fun _ s' e h => withErrs S g f s' e (withFlushErr S g _ s' e h),
   fun _ s' e h => withErrs S g f s' e (withCloseErr S g _ s' e h)⟩

theorem fmErrs (S : Sink σ ι ε) (f : υ → List (Except ε ι))
    (m : WithFlatMap σ ι ε) (e : ε) (h : m.err = some e) :
    Errs (withFlatMap S f) m e := by
  refine ⟨fun v => ?_, ?_, ?_⟩
  · show fmSend S f m v = (m, .error e)
    unfold fmSend
    rw [h]
  · show fmFlush S m = (m, .error e)
    unfold fmFlush
    rw [h]
  · show fmClose S m = (m, .error e)
    unfold fmClose
    rw [h]

theorem fmSendErr (S : Sink σ ι ε) (f : υ → List (Except ε ι))
    (m : WithFlatMap σ ι ε) (u : υ) (m' : WithFlatMap σ ι ε) (e : ε)
    (h : fmSend S f m u = (m', .error e)) : m'.err = some e := by
  unfold fmSend at h
  split at h
  next e0 heq =>
    simp only [Prod.mk.injEq, SendRes.error.injEq] at h
    obtain ⟨h1, rfl⟩ := h
    rw [← h1]; exact heq
  next heq =>
    simp only at h
    split at h
    next e0 heq1 =>
      simp only [Prod.mk.injEq, SendRes.error.injEq] at h
      obtain ⟨h1, rfl⟩ := h
      rw [← h1]; exact heq1
    next heq1 =>
      split at h <;> simp at h

theorem fmFlushErr (S : Sink σ ι ε)
    (m : WithFlatMap σ ι ε) (m' : WithFlatMap σ ι ε) (e : ε)
    (h : fmFlush S m = (m', .error e)) : m'.err = some e := by
  unfold fmFlush at h
  split at h
  next e0 heq =>
    simp only [Prod.mk.injEq, PollRes.error.injEq] at h
    obtain ⟨h1, rfl⟩ := h
    rw [← h1]; exact heq
  next heq =>
    simp only at h
    split at h
    next e0 heq1 =>
      simp only [Prod.mk.injEq, PollRes.error.injEq] at h
      obtain ⟨h1, rfl⟩ := h
      rw [← h1]; exact heq1
    next heq1 =>
      split at h
      · split at h
        · simp at h
        · simp at h
        · simp only [Prod.mk.injEq, PollRes.error.injEq] at h
          obtain ⟨h1, rfl⟩ := h
          rw [← h1]
      · simp at h

theorem fmCloseErr (S : Sink σ ι ε)
    (m : WithFlatMap σ ι ε) (m' : WithFlatMap σ ι ε) (e : ε)
    (h : fmClose S m = (m', .error e)) : m'.err = some e := by
  unfold fmClose at h
  split at h
  next e0 heq =>
    simp only [Prod.mk.injEq, PollRes.error.injEq] at h
    obtain ⟨h1, rfl⟩ := h
    rw [← h1]; exact heq
  next heq =>
    simp only at h
    split at h
    next e0 heq1 =>
      simp only [Prod.mk.injEq, PollRes.error.injEq] at h
      obtain ⟨h1, rfl⟩ := h
      rw [← h1]; exact heq1
    next heq1 =>
      split at h
      · split at h
        · simp at h
        · simp at h
        · simp only [Prod.mk.injEq, PollRes.error.injEq] at h
          obtain ⟨h1, rfl⟩ := h
          rw [← h1]
      · simp at h

theorem fmSticky (S : Sink σ ι ε) (f : υ → List (Except ε ι)) :
    Sticky (withFlatMap S f) :=
  ⟨fun _ v s' e h => fmErrs S f s' e (fmSendErr S f _ v s' e h),
   fun _ s' e h => fmErrs S f s' e (fmFlushErr S _ s' e h),
   fun _ s' e h => fmErrs S f s' e (fmCloseErr S _ s' e h)⟩

theorem fanErrs (S₁ : Sink σ₁ ι ε) (S₂ : Sink σ₂ ι ε)
    (t : Fanout σ₁ σ₂ ι ε) (e : ε) (h : t.err = some e) :
    Errs (fanout S₁ S₂) t e := by
  refine ⟨fun v => ?_, ?_, ?_⟩
  · show fanSend S₁ S₂ t v = (t, .error e)
    unfold fanSend
    rw [h]
  · show fanFlush S₁ S₂ t = (t, .error e)
    unfold fanFlush
    rw [h]
  · show fanClose S₁ S₂ t = (t, .error e)
    unfold fanClose
    rw [h]

theorem fanSendErr (S₁ : Sink σ₁ ι ε) (S₂ : Sink σ₂ ι ε)
    (t : Fanout σ₁ σ₂ ι ε) (v : ι) (t' : Fanout σ₁ σ₂ ι ε) (e : ε)
    (h : fanSend S₁ S₂ t v = (t', .error e)) : t'.err = some e := by
  unfold fanSend at h
  split at h
  next e0 heq =>
    simp only [Prod.mk.injEq, SendRes.error.injEq] at h
    obtain ⟨h1, rfl⟩ := h
    rw [← h1]; exact heq
  next heq =>
    simp only at h
    split at h
    next e1 heq1 =>
      simp only [Prod.mk.injEq, SendRes.error.injEq] at h
      obtain ⟨h1, rfl⟩ := h
      rw [← h1]
    next heq1 =>
      split at h
      next e2 heq2 =>
        simp only [Prod.mk.injEq, SendRes.error.injEq] at h
        obtain ⟨h1, rfl⟩ := h
        rw [← h1]
      next heq2 =>
        split at h <;> simp at h

theorem fanFlushErr (S₁ : Sink σ₁ ι ε) (S₂ : Sink σ₂ ι ε)
    (t : Fanout σ₁ σ₂ ι ε) (t' : Fanout σ₁ σ₂ ι ε) (e : ε)
    (h : fanFlush S₁ S₂ t = (t', .error e)) : t'.err = some e := by
  unfold fanFlush at h
  split at h
  next e0 heq =>
    simp only [Prod.mk.injEq, PollRes.error.injEq] at h
    obtain ⟨h1, rfl⟩ := h
    rw [← h1]; exact heq
  next heq =>
    split at h
    next w a1 a2 heqs =>
      simp only at h
      split at h
      next e1 heq1 =>
        simp only [Prod.mk.injEq, PollRes.error.injEq] at h
        obtain ⟨h1, rfl⟩ := h
        rw [← h1]
      next heq1 =>
        split at h
        next e2 heq2 =>
          simp only [Prod.mk.injEq, PollRes.error.injEq] at h
          obtain ⟨h1, rfl⟩ := h
          rw [← h1]
        next heq2 =>
          split at h <;> simp at h
    next heqs =>
      simp only at h
      split at h
      next e1 heq1 =>
        simp only [Prod.mk.injEq, PollRes.error.injEq] at h
        obtain ⟨h1, rfl⟩ := h
        rw [← h1]
      next heq1 =>
        split at h
        next e2 heq2 =>
          simp only [Prod.mk.injEq, PollRes.error.injEq] at h
          obtain ⟨h1, rfl⟩ := h
          rw [← h1]
        next heq2 => simp at h
      next heq1 =>
        split at h
        next e2 heq2 =>
          simp only [Prod.mk.injEq, PollRes.error.injEq] at h
          obtain ⟨h1, rfl⟩ := h
          rw [← h1]
        next heq2 => simp at h
        next heq2 => simp at h

theorem fanCloseErr (S₁ : Sink σ₁ ι ε) (S₂ : Sink σ₂ ι ε)
    (t : Fanout σ₁ σ₂ ι ε) (t' : Fanout σ₁ σ₂ ι ε) (e : ε)
    (h : fanClose S₁ S₂ t = (t', .error e)) : t'.err = some e := by
  unfold fanClose at h
  split at h
  next e0 heq =>
    simp only [Prod.mk.injEq, PollRes.error.injEq] at h
    obtain ⟨h1, rfl⟩ := h
    rw [← h1]; exact heq
  next heq =>
    split at h
    next w a1 a2 heqs =>
      simp only at h
      split at h
      next e1 heq1 =>
        simp only [Prod.mk.injEq, PollRes.error.injEq] at h
        obtain ⟨h1, rfl⟩ := h
        rw [← h1]
      next heq1 =>
        split at h
        next e2 heq2 =>
          simp only [Prod.mk.injEq, PollRes.error.injEq] at h
          obtain ⟨h1, rfl⟩ := h
          rw [← h1]
        next heq2 =>
          split at h <;> simp at h
    next heqs =>
      simp only at h
      split at h
      next e1 heq1 =>
        simp only [Prod.mk.injEq, PollRes.error.injEq] at h
        obtain ⟨h1, rfl⟩ := h
        rw [← h1]
      next heq1 =>
        split at h
        next e2 heq2 =>
          simp only [Prod.mk.injEq, PollRes.error.injEq] at h
          obtain ⟨h1, rfl⟩ := h
          rw [← h1]
        next heq2 => simp at h
      next heq1 =>
        split at h
        next e2 heq2 =>
          simp only [Prod.mk.injEq, PollRes.error.injEq] at h
          obtain ⟨h1, rfl⟩ := h
          rw [← h1]
        next heq2 => simp at h
        next heq2 => simp at h

theorem fanSticky (S₁ : Sink σ₁ ι ε) (S₂ : Sink σ₂ ι ε) :
    Sticky (fanout S₁ S₂) :=
  ⟨fun _ v s' e h => fanErrs S₁ S₂ s' e (fanSendErr S₁ S₂ _ v s' e h),
   fun _ s' e h => fanErrs S₁ S₂ s' e (fanFlushErr S₁ S₂ _ s' e h),
   fun _ s' e h => fanErrs S₁ S₂ s' e (fanCloseErr S₁ S₂ _ s' e h)⟩

/-- C6: no adapter retries past a reported error.  For the recording
sink, for every adapter over any inner sink, and hence for every adapter
stack: once any operation reports an error, every subsequent operation
reports that same error with no state change — the adapter never again
reports success and never silently resumes driving the failed inner
sink. -/
theorem error_propagation :
    (∀ (ι : Type), Sticky (recSink ι)) ∧
    (∀ (σ ι ε : Type) (S : Sink σ ι ε) (cap : Nat), Sticky (buffer S cap)) ∧
    (∀ (σ ι ε ε' υ : Type) (S : Sink σ ι ε) (g : ε → ε')
        (f : υ → Nat × Except ε' ι), Sticky (withSink S g f)) ∧
    (∀ (σ ι ε υ : Type) (S : Sink σ ι ε) (f : υ → List (Except ε ι)),
      Sticky (withFlatMap S f)) ∧
    (∀ (σ₁ σ₂ ι ε : Type) (S₁ : Sink σ₁ ι ε) (S₂ : Sink σ₂ ι ε),
      Sticky (fanout S₁ S₂)) ∧
    (∀ st : Stack, Sticky st.toGood.S) := by
  refine ⟨recSticky, fun σ ι ε S cap => bufSticky S cap,
    fun σ ι ε ε' υ S g f => withSticky S g f,
    fun σ ι ε υ S f => fmSticky S f,
    fun σ₁ σ₂ ι ε S₁ S₂ => fanSticky S₁ S₂, ?_⟩
  intro st
  cases st with
  | base p => exact recSticky Nat
  | buffer cap r => exact bufSticky r.toGood.S cap
  | withF d f r => exact withSticky r.toGood.S id _
  | flatMap f r => exact fmSticky r.toGood.S _
  | fanout l r => exact fanSticky l.toGood.S r.toGood.S

/-- Witness for C6: a recording sink set to fail on its third item,
buffered behind a capacity-1 buffer: the flush that delivers the third
item reports error 2, and by the theorem both a subsequent send and a
subsequent flush report that same error with no state change. -/
theorem error_propagation_witness :
    (buffer (recSink Nat) 1).poll_flush
        ⟨⟨[5, 6], none, 0, some 2, none, true, false⟩, [7], none⟩
      = (⟨⟨[5, 6], none, 0, some 2, some 2, true, false⟩, [7], some 2⟩, .error 2) ∧
    (buffer (recSink Nat) 1).start_send
        ⟨⟨[5, 6], none, 0, some 2, some 2, true, false⟩, [7], some 2⟩ 9
      = (⟨⟨[5, 6], none, 0, some 2, some 2, true, false⟩, [7], some 2⟩, .error 2) ∧
    (buffer (recSink Nat) 1).poll_flush
        ⟨⟨[5, 6], none, 0, some 2, some 2, true, false⟩, [7], some 2⟩
      = (⟨⟨[5, 6], none, 0, some 2, some 2, true, false⟩, [7], some 2⟩, .error 2) := by
  have h1 : (buffer (recSink Nat) 1).poll_flush
      ⟨⟨[5, 6], none, 0, some 2, none, true, false⟩, [7], none⟩
      = (⟨⟨[5, 6], none, 0, some 2, some 2, true, false⟩, [7], some 2⟩, .error 2) := by
    rfl
  have h2 := (error_propagation.2.1 _ _ _ (recSink Nat) 1).2.1 _ _ _ h1
  exact ⟨h1, h2.1 9, h2.2.1⟩

/-! ## WithFlatMap error elements (C10) and With error conversion (C8) -/

/-- C10: the expansion stream of a WithFlatMap composition yields
`Result` elements whose error type is exactly the inner sink's error
type `ε` (see the `withFlatMap` signature: no conversion), and an error
element of the sub-sequence is surfaced directly, unchanged, as the
adapter's own error by the next operation. -/
theorem with_flat_map_error_element (S : Sink σ ι ε)
    (f : υ → List (Except ε ι)) (m : WithFlatMap σ ι ε) (u : υ) (e : ε)
    (tl : List (Except ε ι))
    (h1 : m.err = none) (h2 : m.buffered = none)
    (h3 : m.stm = .error e :: tl) :
    (withFlatMap S f).start_send m u = (⟨m.sink, none, tl, some e⟩, .error e) ∧
    (withFlatMap S f).poll_flush m = (⟨m.sink, none, tl, some e⟩, .error e) := by
  obtain ⟨sk, bf, stm, er⟩ := m
  cases h1
  cases h2
  cases h3
  exact ⟨rfl, rfl⟩

/-- Witness for C10: a concrete draining state whose sub-stream starts
with an error element surfaces exactly that error. -/
theorem with_flat_map_error_element_witness :
    (withFlatMap (recSink Nat) (fun _ : Nat => [])).start_send
        ⟨⟨[], none, 0, none, none, false, false⟩, none, [.error 7, .ok 1], none⟩ 0
      = (⟨⟨[], none, 0, none, none, false, false⟩, none, [.ok 1], some 7⟩, .error 7) :=
  (with_flat_map_error_element (recSink Nat) (fun _ : Nat => [])
    ⟨⟨[], none, 0, none, none, false, false⟩, none, [.error 7, .ok 1], none⟩
    0 7 [.ok 1] rfl rfl rfl).1

theorem withSendBufErr (S : Sink σ ι ε) (g : ε → ε')
    (f : υ → Nat × Except ε' ι) (sk : σ) (v : ι) (u : υ) (s' : σ) (e : ε)
    (h : S.start_send sk v = (s', .error e)) :
    (withSink S g f).start_send ⟨sk, .buffered v, none⟩ u
      = (⟨s', .buffered v, some (g e)⟩, .error (g e)) := by
  show withSend S g f ⟨sk, .buffered v, none⟩ u = _
  simp [withSend, wdrive, wtrySend, h]

/-- C8: the With adapter's error type is a conversion target of the
inner sink's error type, exactly as the `E: From<Self::SinkError>` bound
on `SinkExt::with` requires: a completed step-function conversion that
failed is reported as the adapter's own error unchanged; an inner-sink
error is reported through the conversion `g`; and through a two-layer
With stack the base error arrives through the composed conversions
`g₂ ∘ g₁`, so error types compose structurally at every depth. -/
theorem with_error_conversion :
    (∀ (σ ι ε ε' υ : Type) (S : Sink σ ι ε) (g : ε → ε')
        (f : υ → Nat × Except ε' ι) (sk : σ) (u : υ) (e' : ε'),
      (withSink S g f).start_send ⟨sk, .conv 0 (.error e'), none⟩ u
        = (⟨sk, .empty, some e'⟩, .error e')) ∧
    (∀ (σ ι ε ε' υ : Type) (S : Sink σ ι ε) (g : ε → ε')
        (f : υ → Nat × Except ε' ι) (sk : σ) (v : ι) (u : υ) (s' : σ) (e : ε),
      S.start_send sk v = (s', .error e) →
      (withSink S g f).start_send ⟨sk, .buffered v, none⟩ u
        = (⟨s', .buffered v, some (g e)⟩, .error (g e))) ∧
    (∀ (σ ι ε ε₁ ε₂ υ₁ υ₂ : Type) (S : Sink σ ι ε) (g₁ : ε → ε₁)
        (g₂ : ε₁ → ε₂) (f₁ : υ₁ → Nat × Except ε₁ ι)
        (f₂ : υ₂ → Nat × Except ε₂ υ₁) (sk : σ) (v₁ : ι) (v₂ : υ₁) (u : υ₂)
        (s' : σ) (e : ε),
      S.start_send sk v₁ = (s', .error e) →
      ((withSink (withSink S g₁ f₁) g₂ f₂).start_send
          ⟨⟨sk, .buffered v₁, none⟩, .buffered v₂, none⟩ u).2
        = .error (g₂ (g₁ e))) := by
  refine ⟨?_, ?_, ?_⟩
  · intro σ ι ε ε' υ S g f sk u e'
    rfl
  · intro σ ι ε ε' υ S g f sk v u s' e h
    exact withSendBufErr S g f sk v u s' e h
  · intro σ ι ε ε₁ ε₂ υ₁ υ₂ S g₁ g₂ f₁ f₂ sk v₁ v₂ u s' e h
    have h1 := withSendBufErr S g₁ f₁ sk v₁ v₂ s' e h
    show (withSend (withSink S g₁ f₁) g₂ f₂ _ u).2 = _
    simp [withSend, wdrive, wtrySend, h1]

/-- Witness for C8: a failed base sink's error value 3 surfaces through
two stacked With layers with conversions `+10` and `+100` as 113. -/
theorem with_error_conversion_witness :
    ((withSink (withSink (recSink Nat) (· + 10) (fun u : Nat => (0, .ok u)))
        (· + 100) (fun u : Nat => (0, .ok u))).start_send
      ⟨⟨⟨[], none, 0, none, some 3, false, false⟩, .buffered 1, none⟩,
        .buffered 2, none⟩ 0).2 = .error 113 :=
  with_error_conversion.2.2 _ _ _ _ _ _ _ (recSink Nat) (· + 10) (· + 100)
    (fun u : Nat => (0, .ok u)) (fun u : Nat => (0, .ok u))
    ⟨[], none, 0, none, some 3, false, false⟩ 1 2 0
    ⟨[], none, 0, none, some 3, false, false⟩ 3 rfl

/-! ## Buffer capacity (C2) -/

theorem tryEmpty_len (S : Sink σ ι ε) : ∀ (q : List ι) (s : σ),
    (tryEmpty S q s).2.1.length ≤ q.length := by
  intro q
  induction q with
  | nil => intro s; simp [tryEmpty]
  | cons v t ih =>
      intro s
      rcases h : S.start_send s v with ⟨s', r⟩
      unfold tryEmpty
      rw [h]
      cases r with
      | accepted => exact le_trans (ih s') (Nat.le_succ _)
      | rejected => simp
      | error e => simp

theorem buffer_len_inv (S : Sink σ ι ε) (cap : Nat) (b : Buffer σ ι ε)
    (v : ι) (h : b.buf.length ≤ cap) :
    ((buffer S cap).start_send b v).1.buf.length ≤ cap ∧
    ((buffer S cap).poll_flush b).1.buf.length ≤ cap ∧
    ((buffer S cap).poll_close b).1.buf.length ≤ cap := by
  refine ⟨?_, ?_, ?_⟩
  · show (bufSend S cap b v).1.buf.length ≤ cap
    unfold bufSend
    split
    · exact h
    · split
      · rcases hs : S.start_send b.sink v with ⟨s', r⟩
        cases r <;> simpa using h
      · rcases hte : tryEmpty S b.buf b.sink with ⟨s1, q1, eo⟩
        have hlen := tryEmpty_len S b.buf b.sink
        rw [hte] at hlen
        simp only at hlen
        cases eo with
        | some e => simpa using le_trans hlen h
        | none =>
            by_cases hlt : q1.length < cap
            · simpa [hlt] using Nat.succ_le_of_lt hlt
            · simpa [hlt] using le_trans hlen h
  · show (bufFlush S b).1.buf.length ≤ cap
    unfold bufFlush
    split
    · exact h
    · rcases hte : tryEmpty S b.buf b.sink with ⟨s1, q1, eo⟩
      have hlen := tryEmpty_len S b.buf b.sink
      rw [hte] at hlen
      simp only at hlen
      cases eo with
      | some e => simpa using le_trans hlen h
      | none =>
          cases q1 with
          | cons w t => simpa using le_trans hlen h
          | nil =>
              rcases hf : S.poll_flush s1 with ⟨s2, r⟩
              cases r <;> simp [hf]
  · show (bufClose S b).1.buf.length ≤ cap
    unfold bufClose
    split
    · exact h
    · rcases hte : tryEmpty S b.buf b.sink with ⟨s1, q1, eo⟩
      have hlen := tryEmpty_len S b.buf b.sink
      rw [hte] at hlen
      simp only at hlen
      cases eo with
      | some e => simpa using le_trans hlen h
      | none =>
          cases q1 with
          | cons w t => simpa using le_trans hlen h
          | nil =>
              rcases hf : S.poll_close s1 with ⟨s2, r⟩
              cases r <;> simp [hf]

theorem recSend_budget0 (s : RecSt ι) (v : ι) (h1 : s.failed = none)
    (h2 : s.errAt = none) (h3 : s.delay = 0) (h4 : s.budget = some 0) :
    recSend s v = (s, .rejected) := by
  simp [recSend, h1, h2, h3, h4]

theorem tryEmpty_stall (q : List ι) (s : RecSt ι) (h1 : s.failed = none)
    (h2 : s.errAt = none) (h3 : s.delay = 0) (h4 : s.budget = some 0) :
    tryEmpty (recSink ι) q s = (s, q, none) := by
  cases q with
  | nil => rfl
  | cons v t =>
      unfold tryEmpty
      rw [show (recSink ι).start_send s v = (s, .rejected) from
        recSend_budget0 s v h1 h2 h3 h4]

theorem buffer_fill (N : Nat) : ∀ (xs : List Nat) (q : List Nat),
    q.length + xs.length ≤ N →
    sendEach (buffer (recSink Nat) N) xs
        ⟨⟨[], some 0, 0, none, none, false, false⟩, q, none⟩
      = (⟨⟨[], some 0, 0, none, none, false, false⟩, q ++ xs, none⟩,
          List.replicate xs.length .accepted) := by
  intro xs
  induction xs with
  | nil => intro q h; simp [sendEach]
  | cons v t ih =>
      intro q h
      have hN : q.length < N := by simp at h; omega
      have hcap : ¬(N = 0) := by omega
      have hsend : (buffer (recSink Nat) N).start_send
          ⟨⟨[], some 0, 0, none, none, false, false⟩, q, none⟩ v
          = (⟨⟨[], some 0, 0, none, none, false, false⟩, q ++ [v], none⟩,
              .accepted) := by
        simp [buffer, bufSend, hcap, hN,
          tryEmpty_stall q ⟨[], some 0, 0, none, none, false, false⟩
            rfl rfl rfl rfl]
      unfold sendEach
      rw [hsend]
      simp only
      rw [ih (q ++ [v]) (by simp at h ⊢; omega)]
      simp [List.replicate_succ, List.append_assoc]

/-- C2: the Buffer queue never exceeds the capacity: `len(buf) ≤ cap` is
preserved by `start_send`, `poll_flush` and `poll_close` over any inner
sink; moreover over an inner sink that accepts nothing, the first `N`
items are all accepted into the queue, the `(N+1)`-th is rejected, and
once the inner sink will accept exactly one item, exactly one further
item is accepted and the next is rejected again. -/
theorem buffer_capacity :
    (∀ (σ ι ε : Type) (S : Sink σ ι ε) (cap : Nat) (b : Buffer σ ι ε) (v : ι),
      b.buf.length ≤ cap →
      ((buffer S cap).start_send b v).1.buf.length ≤ cap ∧
      ((buffer S cap).poll_flush b).1.buf.length ≤ cap ∧
      ((buffer S cap).poll_close b).1.buf.length ≤ cap) ∧
    (∀ (N : Nat) (xs : List Nat), xs.length = N →
      sendEach (buffer (recSink Nat) N) xs
          ⟨⟨[], some 0, 0, none, none, false, false⟩, [], none⟩
        = (⟨⟨[], some 0, 0, none, none, false, false⟩, xs, none⟩,
            List.replicate N .accepted)) ∧
    (∀ (N : Nat) (xs : List Nat) (w : Nat), xs.length = N →
      (buffer (recSink Nat) N).start_send
          ⟨⟨[], some 0, 0, none, none, false, false⟩, xs, none⟩ w
        = (⟨⟨[], some 0, 0, none, none, false, false⟩, xs, none⟩, .rejected)) ∧
    (∀ (N : Nat) (xs : List Nat) (w z : Nat), xs.length = N →
      ((buffer (recSink Nat) N).start_send
          ⟨⟨[], some 1, 0, none, none, false, false⟩, xs, none⟩ w).2
        = .accepted ∧
      ((buffer (recSink Nat) N).start_send
          ((buffer (recSink Nat) N).start_send
            ⟨⟨[], some 1, 0, none, none, false, false⟩, xs, none⟩ w).1 z).2
        = .rejected) := by
  refine ⟨fun σ ι ε S cap b v h => buffer_len_inv S cap b v h, ?_, ?_, ?_⟩
  · intro N xs hx
    subst hx
    simpa using buffer_fill xs.length xs [] (by simp)
  · intro N xs w hx
    subst hx
    cases xs with
    | nil => rfl
    | cons h t =>
        simp [buffer, bufSend,
          tryEmpty_stall (h :: t) ⟨[], some 0, 0, none, none, false, false⟩
            rfl rfl rfl rfl]
  · intro N xs w z hx
    subst hx
    cases xs with
    | nil => exact ⟨rfl, rfl⟩
    | cons a t =>
        have h1 : recSend ⟨[], some 1, 0, none, none, false, false⟩ a
            = (⟨[a], some 0, 0, none, none, true, false⟩, .accepted) := rfl
        have h2 : tryEmpty (recSink Nat) (a :: t)
            ⟨[], some 1, 0, none, none, false, false⟩
            = (⟨[a], some 0, 0, none, none, true, false⟩, t, none) := by
          unfold tryEmpty
          rw [show (recSink Nat).start_send
              ⟨[], some 1, 0, none, none, false, false⟩ a = _ from h1]
          exact tryEmpty_stall t _ rfl rfl rfl rfl
        have hfirst : (buffer (recSink Nat) (a :: t).length).start_send
            ⟨⟨[], some 1, 0, none, none, false, false⟩, a :: t, none⟩ w
            = (⟨⟨[a], some 0, 0, none, none, true, false⟩, t ++ [w], none⟩,
                .accepted) := by
          simp [buffer, bufSend, h2, Nat.lt_succ_self]
        refine ⟨by rw [hfirst], ?_⟩
        rw [hfirst]
        simp [buffer, bufSend,
          tryEmpty_stall (t ++ [w]) ⟨[a], some 0, 0, none, none, true, false⟩
            rfl rfl rfl rfl]

/-- Witness for C2: capacity 2 with a non-accepting inner sink accepts
items 4 and 5 into the queue, rejects 6; after the inner sink will
accept one item, 6 is accepted and 7 rejected. -/
theorem buffer_capacity_witness :
    sendEach (buffer (recSink Nat) 2) [4, 5]
        ⟨⟨[], some 0, 0, none, none, false, false⟩, [], none⟩
      = (⟨⟨[], some 0, 0, none, none, false, false⟩, [4, 5], none⟩,
          [.accepted, .accepted]) ∧
    (buffer (recSink Nat) 2).start_send
        ⟨⟨[], some 0, 0, none, none, false, false⟩, [4, 5], none⟩ 6
      = (⟨⟨[], some 0, 0, none, none, false, false⟩, [4, 5], none⟩, .rejected) ∧
    ((buffer (recSink Nat) 2).start_send
        ⟨⟨[], some 1, 0, none, none, false, false⟩, [4, 5], none⟩ 6).2
      = .accepted ∧
    ((buffer (recSink Nat) 2).start_send
        ((buffer (recSink Nat) 2).start_send
          ⟨⟨[], some 1, 0, none, none, false, false⟩, [4, 5], none⟩ 6).1 7).2
      = .rejected :=
  ⟨by simpa using buffer_capacity.2.1 2 [4, 5] rfl,
   buffer_capacity.2.2.1 2 [4, 5] 6 rfl,
   (buffer_capacity.2.2.2 2 [4, 5] 6 7 rfl).1,
   (buffer_capacity.2.2.2 2 [4, 5] 6 7 rfl).2⟩

/-! ## WithFlatMap expansion completeness (C4) -/

/-- C4: an external item `x` mapping to the sub-sequence `[a, b, c]` is
accepted and transitions the adapter to draining; while the inner sink
has accepted only `j < 3` of the sub-items, the next external item is
rejected and exactly the first `j` sub-items (in order) have arrived at
the inner sink; once the inner sink has capacity for all three, exactly
`a, b, c` have arrived in order and only then is the next external item
accepted. -/
theorem with_flat_map_expansion (f : Nat → List Nat) (x y a b c : Nat)
    (j : Nat) (hf : f x = [a, b, c]) :
    ((withFlatMap (recSink Nat) (fun u => (f u).map .ok)).start_send
        ⟨⟨[], some j, 0, none, none, false, false⟩, none, [], none⟩ x
      = (⟨⟨[], some j, 0, none, none, false, false⟩, none,
          [.ok a, .ok b, .ok c], none⟩, .accepted)) ∧
    (j < 3 →
      ((withFlatMap (recSink Nat) (fun u => (f u).map .ok)).start_send
          ⟨⟨[], some j, 0, none, none, false, false⟩, none,
            [.ok a, .ok b, .ok c], none⟩ y).2 = .rejected ∧
      ((withFlatMap (recSink Nat) (fun u => (f u).map .ok)).start_send
          ⟨⟨[], some j, 0, none, none, false, false⟩, none,
            [.ok a, .ok b, .ok c], none⟩ y).1.sink.recorded
        = List.take j [a, b, c]) ∧
    (3 ≤ j →
      ((withFlatMap (recSink Nat) (fun u => (f u).map .ok)).start_send
          ⟨⟨[], some j, 0, none, none, false, false⟩, none,
            [.ok a, .ok b, .ok c], none⟩ y).2 = .accepted ∧
      ((withFlatMap (recSink Nat) (fun u => (f u).map .ok)).start_send
          ⟨⟨[], some j, 0, none, none, false, false⟩, none,
            [.ok a, .ok b, .ok c], none⟩ y).1.sink.recorded = [a, b, c] ∧
      ((withFlatMap (recSink Nat) (fun u => (f u).map .ok)).start_send
          ⟨⟨[], some j, 0, none, none, false, false⟩, none,
            [.ok a, .ok b, .ok c], none⟩ y).1.stm = (f y).map .ok) := by
  refine ⟨?_, ?_, ?_⟩
  · simp [withFlatMap, fmSend, fmDrive, fmDrain, hf]
  · intro hj
    rcases j with _ | _ | _ | j
    · exact ⟨rfl, rfl⟩
    · exact ⟨rfl, rfl⟩
    · exact ⟨rfl, rfl⟩
    · exact absurd hj (by omega)
  · intro hj
    obtain ⟨k, rfl⟩ : ∃ k, j = k + 3 := ⟨j - 3, by omega⟩
    exact ⟨rfl, rfl, rfl⟩

/-- Witness for C4: with `f 0 = [1, 2, 3]` and inner budget 2, sending 0
is accepted, a following send of 9 is rejected with the inner sink
having recorded exactly `[1, 2]`; with budget 5 the following send is
accepted with `[1, 2, 3]` recorded in order. -/
theorem with_flat_map_expansion_witness :
    ((withFlatMap (recSink Nat) (fun u => ((fun _ : Nat => [1, 2, 3]) u).map .ok)).start_send
        ⟨⟨[], some 2, 0, none, none, false, false⟩, none,
          [.ok 1, .ok 2, .ok 3], none⟩ 9).2 = .rejected ∧
    ((withFlatMap (recSink Nat) (fun u => ((fun _ : Nat => [1, 2, 3]) u).map .ok)).start_send
        ⟨⟨[], some 2, 0, none, none, false, false⟩, none,
          [.ok 1, .ok 2, .ok 3], none⟩ 9).1.sink.recorded = [1, 2] ∧
    ((withFlatMap (recSink Nat) (fun u => ((fun _ : Nat => [1, 2, 3]) u).map .ok)).start_send
        ⟨⟨[], some 5, 0, none, none, false, false⟩, none,
          [.ok 1, .ok 2, .ok 3], none⟩ 9).2 = .accepted ∧
    ((withFlatMap (recSink Nat) (fun u => ((fun _ : Nat => [1, 2, 3]) u).map .ok)).start_send
        ⟨⟨[], some 5, 0, none, none, false, false⟩, none,
          [.ok 1, .ok 2, .ok 3], none⟩ 9).1.sink.recorded = [1, 2, 3] := by
  have h2 := with_flat_map_expansion (fun _ : Nat => [1, 2, 3]) 0 9 1 2 3 2 rfl
  have h5 := with_flat_map_expansion (fun _ : Nat => [1, 2, 3]) 0 9 1 2 3 5 rfl
  exact ⟨(h2.2.1 (by decide)).1, by simpa using (h2.2.1 (by decide)).2,
    (h5.2.2 (by decide)).1, (h5.2.2 (by decide)).2.1⟩

/-! ## Fanout exactly-once duplication (C3) -/

theorem fanFirst (v : Nat) (d : Nat) :
    (fanout (recSink Nat) (recSink Nat)).start_send
        ⟨⟨[], none, 0, none, none, false, false⟩,
          ⟨[], none, d + 1, none, none, false, false⟩, none, none⟩ v
      = (⟨⟨[v], none, 0, none, none, true, false⟩,
          ⟨[], none, d, none, none, false, false⟩, some (v, true, false), none⟩,
          .rejected) := rfl

theorem fanRetryStep (v : Nat) (d : Nat) (r1st : RecSt Nat) :
    (fanout (recSink Nat) (recSink Nat)).start_send
        ⟨r1st, ⟨[], none, d + 1, none, none, false, false⟩,
          some (v, true, false), none⟩ v
      = (⟨r1st, ⟨[], none, d, none, none, false, false⟩,
          some (v, true, false), none⟩, .rejected) := rfl

theorem fanRetryAcc (v : Nat) (r1st : RecSt Nat) :
    (fanout (recSink Nat) (recSink Nat)).start_send
        ⟨r1st, ⟨[], none, 0, none, none, false, false⟩,
          some (v, true, false), none⟩ v
      = (⟨r1st, ⟨[v], none, 0, none, none, true, false⟩, none, none⟩,
          .accepted) := rfl

theorem fanIterRetry (v : Nat) (r1st : RecSt Nat) : ∀ (j d : Nat), j ≤ d →
    iterSend (fanout (recSink Nat) (recSink Nat)) j
        ⟨r1st, ⟨[], none, d, none, none, false, false⟩,
          some (v, true, false), none⟩ v
      = (⟨r1st, ⟨[], none, d - j, none, none, false, false⟩,
          some (v, true, false), none⟩, .rejected) := by
  intro j
  induction j with
  | zero => intro d hd; simp [iterSend]
  | succ i ih =>
      intro d hd
      obtain ⟨d', rfl⟩ : ∃ d', d = d' + 1 := ⟨d - 1, by omega⟩
      unfold iterSend
      rw [fanRetryStep v d' r1st]
      simpa [Nat.succ_sub_succ] using ih d' (by omega)

theorem fanIterAcc (v : Nat) (r1st : RecSt Nat) : ∀ (d : Nat),
    iterSend (fanout (recSink Nat) (recSink Nat)) (d + 1)
        ⟨r1st, ⟨[], none, d, none, none, false, false⟩,
          some (v, true, false), none⟩ v
      = (⟨r1st, ⟨[v], none, 0, none, none, true, false⟩, none, none⟩,
          .accepted) := by
  intro d
  induction d with
  | zero =>
      unfold iterSend
      rw [fanRetryAcc v r1st]
  | succ d' ih =>
      unfold iterSend
      rw [fanRetryStep v d' r1st]
      exact ih

/-- C3: through a Fanout of two recording sinks (identical item and
error types) where the second sink delays `d` polls, retrying the send
of `v` for `k ≤ d` polls leaves the adapter still reporting rejection
with `v` recorded exactly once by the first sink and not yet by the
second (the already-accepting sink is never sent `v` again while the
other is retried, and acceptance is not reported before both have
accepted); at poll `d + 1` the adapter reports accepted with `v`
recorded exactly once by each sink. -/
theorem fanout_exactly_once (v d k : Nat) (hk : 1 ≤ k) (hkd : k ≤ d) :
    ((iterSend (fanout (recSink Nat) (recSink Nat)) k
        ⟨⟨[], none, 0, none, none, false, false⟩,
          ⟨[], none, d, none, none, false, false⟩, none, none⟩ v).2
        = .rejected ∧
      (iterSend (fanout (recSink Nat) (recSink Nat)) k
        ⟨⟨[], none, 0, none, none, false, false⟩,
          ⟨[], none, d, none, none, false, false⟩, none, none⟩ v).1.sink1.recorded
        = [v] ∧
      (iterSend (fanout (recSink Nat) (recSink Nat)) k
        ⟨⟨[], none, 0, none, none, false, false⟩,
          ⟨[], none, d, none, none, false, false⟩, none, none⟩ v).1.sink2.recorded
        = []) ∧
    ((iterSend (fanout (recSink Nat) (recSink Nat)) (d + 1)
        ⟨⟨[], none, 0, none, none, false, false⟩,
          ⟨[], none, d, none, none, false, false⟩, none, none⟩ v).2
        = .accepted ∧
      (iterSend (fanout (recSink Nat) (recSink Nat)) (d + 1)
        ⟨⟨[], none, 0, none, none, false, false⟩,
          ⟨[], none, d, none, none, false, false⟩, none, none⟩ v).1.sink1.recorded
        = [v] ∧
      (iterSend (fanout (recSink Nat) (recSink Nat)) (d + 1)
        ⟨⟨[], none, 0, none, none, false, false⟩,
          ⟨[], none, d, none, none, false, false⟩, none, none⟩ v).1.sink2.recorded
        = [v]) := by
  obtain ⟨i, rfl⟩ : ∃ i, k = i + 1 := ⟨k - 1, by omega⟩
  obtain ⟨d', rfl⟩ : ∃ d', d = d' + 1 := ⟨d - 1, by omega⟩
  have h1 : iterSend (fanout (recSink Nat) (recSink Nat)) (i + 1)
      ⟨⟨[], none, 0, none, none, false, false⟩,
        ⟨[], none, d' + 1, none, none, false, false⟩, none, none⟩ v
      = (⟨⟨[v], none, 0, none, none, true, false⟩,
          ⟨[], none, d' - i, none, none, false, false⟩,
          some (v, true, false), none⟩, .rejected) := by
    unfold iterSend
    rw [fanFirst v d']
    exact fanIterRetry v _ i d' (by omega)
  have h2 : iterSend (fanout (recSink Nat) (recSink Nat)) (d' + 1 + 1)
      ⟨⟨[], none, 0, none, none, false, false⟩,
        ⟨[], none, d' + 1, none, none, false, false⟩, none, none⟩ v
      = (⟨⟨[v], none, 0, none, none, true, false⟩,
          ⟨[v], none, 0, none, none, true, false⟩, none, none⟩, .accepted) := by
    unfold iterSend
    rw [fanFirst v d']
    exact fanIterAcc v _ d'
  exact ⟨⟨by rw [h1], by rw [h1], by rw [h1]⟩,
    by rw [h2], by rw [h2], by rw [h2]⟩

/-- Witness for C3: item 8 through a Fanout whose second sink delays 3
polls: after 3 polls the first sink has recorded 8 exactly once and the
second not at all (still rejected); at poll 4 both have recorded 8
exactly once (accepted). -/
theorem fanout_exactly_once_witness :
    (iterSend (fanout (recSink Nat) (recSink Nat)) 3
        ⟨⟨[], none, 0, none, none, false, false⟩,
          ⟨[], none, 3, none, none, false, false⟩, none, none⟩ 8).1.sink1.recorded
      = [8] ∧
    (iterSend (fanout (recSink Nat) (recSink Nat)) 3
        ⟨⟨[], none, 0, none, none, false, false⟩,
          ⟨[], none, 3, none, none, false, false⟩, none, none⟩ 8).1.sink2.recorded
      = [] ∧
    (iterSend (fanout (recSink Nat) (recSink Nat)) 4
        ⟨⟨[], none, 0, none, none, false, false⟩,
          ⟨[], none, 3, none, none, false, false⟩, none, none⟩ 8).1.sink1.recorded
      = [8] ∧
    (iterSend (fanout (recSink Nat) (recSink Nat)) 4
        ⟨⟨[], none, 0, none, none, false, false⟩,
          ⟨[], none, 3, none, none, false, false⟩, none, none⟩ 8).1.sink2.recorded
      = [8] := by
  have h := fanout_exactly_once 8 3 3 (by decide) (by decide)
  exact ⟨h.1.2.1, h.1.2.2, h.2.2.1, h.2.2.2⟩

/-! ## Order preservation through arbitrary stacks (C1): list algebra -/

theorem zipApp_assoc (a : List (List Nat)) : ∀ (b c : List (List Nat)),
    zipApp (zipApp a b) c = zipApp a (zipApp b c) := by
  induction a with
  | nil => intro b c; simp [zipApp]
  | cons x xs ih =>
      intro b c
      cases b with
      | nil => simp [zipApp]
      | cons y ys =>
          cases c with
          | nil => simp [zipApp]
          | cons z zs =>
              simp only [zipApp, List.zipWith_cons_cons, List.append_assoc,
                List.cons.injEq, true_and]
              exact ih ys zs

theorem zipApp_replicate_nil (a : List (List Nat)) :
    zipApp a (List.replicate a.length []) = a := by
  induction a with
  | nil => rfl
  | cons x xs ih =>
      simp only [List.length_cons, List.replicate_succ, zipApp,
        List.zipWith_cons_cons, List.append_nil, List.cons.injEq, true_and]
      simpa [zipApp] using ih

theorem zipApp_append (a1 b1 a2 b2 : List (List Nat))
    (h : a1.length = b1.length) :
    zipApp (a1 ++ a2) (b1 ++ b2) = zipApp a1 b1 ++ zipApp a2 b2 := by
  simp only [zipApp]
  exact List.zipWith_append _ _ _ _ _ h

theorem zipApp_len (a b : List (List Nat)) :
    (zipApp a b).length = min a.length b.length := by
  simp [zipApp]

theorem oks_map_ok (l : List Nat) : oks (l.map .ok) = l := by
  induction l with
  | nil => rfl
  | cons x xs ih => simp [oks, ih]

/-- Leafwise `den` of a cons splits into the head item's and the tail's
contributions. -/
theorem den_cons {G : GoodSink} (L : Laws G) (w : Nat) (t : List Nat) :
    G.den (w :: t) = zipApp (G.den [w]) (G.den t) := by
  simpa using L.den_app [w] t

/-- The empty contribution is absorbed on the right of `zipApp`. -/
theorem FO_den_nil {G : GoodSink} (L : Laws G) (s : G.σ) :
    zipApp (G.FO s) (G.den []) = G.FO s := by
  rw [L.den_nil, ← L.FO_len s]
  exact zipApp_replicate_nil (G.FO s)

theorem recGood_laws : Laws recGood := by
  constructor
  · intro xs ys; rfl
  · intro xs; rfl
  · rfl
  · intro s; rfl
  · intro s v s' res hWF hss
    replace hss : recSend s v = (s', res) := hss
    unfold recSend at hss
    split at hss
    · injection hss with h1 h2
      subst h1; subst h2
      trivial
    · split at hss
      · injection hss with h1 h2
        subst h1; subst h2
        trivial
      · split at hss
        · injection hss with h1 h2
          subst h1; subst h2
          exact ⟨trivial, Or.inl ⟨rfl, rfl⟩⟩
        · split at hss
          · injection hss with h1 h2
            subst h1; subst h2
            refine ⟨trivial, rfl, ?_⟩
            simp [recGood, zipApp]
          · injection hss with h1 h2
            subst h1; subst h2
            exact ⟨trivial, Or.inl ⟨rfl, rfl⟩⟩
          · injection hss with h1 h2
            subst h1; subst h2
            refine ⟨trivial, rfl, ?_⟩
            simp [recGood, zipApp]
  · intro s s' res hWF hheld hpf
    replace hpf : recFlush s = (s', res) := hpf
    unfold recFlush at hpf
    split at hpf
    · injection hpf with h1 h2
      subst h1; subst h2
      trivial
    · injection hpf with h1 h2
      subst h1; subst h2
      exact ⟨trivial, rfl, rfl, rfl⟩

theorem effBuf_nil (G : GoodSink) (s : G.σ) : effBuf G s [] = [] := by
  unfold effBuf; split <;> rfl

theorem effBuf_none {G : GoodSink} {s : G.σ} (h : G.held s = none)
    (q : List Nat) : effBuf G s q = q := by
  simp [effBuf, h]

theorem effBuf_some {G : GoodSink} {s : G.σ} {w : Nat}
    (h : G.held s = some w) (q : List Nat) : effBuf G s q = q.drop 1 := by
  simp [effBuf, h]

/-- Coherence paired with the accounting equation through a best-effort
`tryEmpty` pass: the future output of inner state plus remaining queue
is unchanged, coherence of a partially held head is maintained, and the
queue length does not grow. -/
theorem tryEmpty_spec {G : GoodSink} (L : Laws G) : ∀ (q : List Nat) (s : G.σ),
    G.WF s →
    ((G.held s).isSome = true → ∃ w t, q = w :: t ∧ G.held s = some w) →
    ∀ s' q' eo, tryEmpty G.S q s = (s', q', eo) →
    eo = none →
      G.WF s' ∧
      zipApp (G.FO s') (G.den (effBuf G s' q'))
        = zipApp (G.FO s) (G.den (effBuf G s q)) ∧
      ((G.held s').isSome = true → ∃ w t, q' = w :: t ∧ G.held s' = some w) ∧
      q'.length ≤ q.length := by
  intro q
  induction q with
  | nil =>
      intro s hWF hcoh s' q' eo hte _
      simp only [tryEmpty, Prod.mk.injEq] at hte
      obtain ⟨h1, h2, h3⟩ := hte
      subst h1; subst h2; subst h3
      exact ⟨hWF, rfl, hcoh, le_refl _⟩
  | cons w t ih =>
      intro s hWF hcoh s' q' eo hte heo
      rcases hs : G.S.start_send s w with ⟨s1, r⟩
      rw [tryEmpty, hs] at hte
      have hconc := L.send_law s w s1 r hWF hs
      cases r with
      | accepted =>
          simp only at hte
          obtain ⟨hWF1, hheld1, hfo⟩ := hconc
          have hheld1' : G.held s1 = none := Option.isNone_iff_eq_none.mp hheld1
          have ihr := ih s1 hWF1
            (fun h => absurd h (by simp [hheld1'])) s' q' eo hte heo
          obtain ⟨hWF', hacc, hcoh', hlen'⟩ := ihr
          refine ⟨hWF', ?_, hcoh', le_trans hlen' (Nat.le_succ _)⟩
          rw [hacc]
          by_cases hh : (G.held s).isSome = true
          · obtain ⟨w0, t0, heq, hsome⟩ := hcoh hh
            injection heq with hA hB
            rw [← hA] at hsome
            rw [if_pos hh] at hfo
            rw [hfo, effBuf_none hheld1' t, effBuf_some hsome (w :: t)]
            rfl
          · rw [if_neg hh] at hfo
            have hnone : G.held s = none := by
              cases hx : G.held s
              · rfl
              · exact absurd (by simp [hx]) hh
            rw [hfo, effBuf_none hheld1' t, effBuf_none hnone (w :: t),
              den_cons L w t, ← zipApp_assoc]
      | rejected =>
          simp only [Prod.mk.injEq] at hte
          obtain ⟨h1, h2, h3⟩ := hte
          subst h1; subst h2; subst h3
          obtain ⟨hWF1, hdisj⟩ := hconc
          rcases hdisj with ⟨hfo, hheld⟩ | ⟨hnone, hfo, hheld⟩
          · refine ⟨hWF1, ?_, ?_, le_refl _⟩
            · unfold effBuf
              rw [hheld, hfo]
            · intro h
              rw [hheld] at h
              obtain ⟨w0, t0, heq, hsome⟩ := hcoh h
              exact ⟨w0, t0, heq, hheld.trans hsome⟩
          · refine ⟨hWF1, ?_, ?_, le_refl _⟩
            · have hsn : G.held s = none := Option.isNone_iff_eq_none.mp hnone
              rw [effBuf_some hheld (w :: t), effBuf_none hsn (w :: t), hfo,
                den_cons L w t, ← zipApp_assoc]
              rfl
            · intro _
              exact ⟨w, t, rfl, hheld⟩
      | error e =>
          simp only [Prod.mk.injEq] at hte
          obtain ⟨h1, h2, h3⟩ := hte
          subst h3
          exact absurd heo (by simp)

theorem held_none_of_not_isSome {G : GoodSink} {s : G.σ}
    (h : ¬((G.held s).isSome = true)) : G.held s = none := by
  cases hx : G.held s
  · rfl
  · exact absurd (by simp [hx]) h

/-- If the head of the queue splits off, so does the effective queue
contribution (under coherence of a held head). -/
theorem effBuf_append_one {G : GoodSink} {s : G.σ} (q : List Nat) (v : Nat)
    (hcoh : (G.held s).isSome = true → ∃ w t, q = w :: t ∧ G.held s = some w) :
    effBuf G s (q ++ [v]) = effBuf G s q ++ [v] := by
  by_cases h : (G.held s).isSome = true
  · obtain ⟨w, t, hq, hw⟩ := hcoh h
    subst hq
    rw [effBuf_some hw, effBuf_some hw]
    rfl
  · have hn := held_none_of_not_isSome h
    rw [effBuf_none hn, effBuf_none hn]

theorem bufGood_laws (G : GoodSink) (L : Laws G) (cap : Nat) :
    Laws (bufGood G cap) := by
  refine ⟨L.den_app, L.den_len, L.den_nil, ?_, ?_, ?_⟩
  · intro b
    show (zipApp (G.FO b.sink) (G.den (effBuf G b.sink b.buf))).length
      = (G.den []).length
    rw [zipApp_len, L.FO_len, L.den_len (effBuf G b.sink b.buf)]
    exact Nat.min_self _
  · -- send_law
    intro b v b' res hWF hss
    replace hss : bufSend G.S cap b v = (b', res) := hss
    unfold bufSend at hss
    split at hss
    next e0 heq =>
      injection hss with h1 h2
      subst h1; subst h2
      trivial
    next heq =>
      have hWFs : G.WF b.sink ∧ b.buf.length ≤ cap ∧
          ((G.held b.sink).isSome = true →
            cap = 0 ∨ ∃ w t, b.buf = w :: t ∧ G.held b.sink = some w) := by
        rcases hWF with h | h
        · rw [heq] at h; simp at h
        · exact h
      obtain ⟨hWFin, hlen, hcohw⟩ := hWFs
      split at hss
      next hcap0 =>
        subst hcap0
        have hbuf : b.buf = [] := List.length_eq_zero.mp (Nat.le_zero.mp hlen)
        have hFOb : (bufGood G 0).FO b = G.FO b.sink := by
          show zipApp (G.FO b.sink) (G.den (effBuf G b.sink b.buf)) = _
          rw [hbuf, effBuf_nil, FO_den_nil L]
        rcases hsi : G.S.start_send b.sink v with ⟨s1, r⟩
        rw [hsi] at hss
        have hconc := L.send_law b.sink v s1 r hWFin hsi
        cases r with
        | accepted =>
            injection hss with h1 h2
            subst h1; subst h2
            obtain ⟨hWF1, hheld1, hfo⟩ := hconc
            have hheld1' := Option.isNone_iff_eq_none.mp hheld1
            refine ⟨Or.inr ⟨hWF1, by simpa using hlen, ?_⟩, ?_, ?_⟩
            · intro h; rw [hheld1'] at h; simp at h
            · show (if (0 : Nat) = 0 then G.held s1 else none).isNone = true
              simpa using hheld1
            · have hFOb' : (bufGood G 0).FO { b with sink := s1 } = G.FO s1 := by
                show zipApp (G.FO s1) (G.den (effBuf G s1 b.buf)) = _
                rw [hbuf, effBuf_nil, FO_den_nil L]
              by_cases hh : ((bufGood G 0).held b).isSome = true
              · rw [if_pos hh, hFOb', hFOb]
                have hh' : (G.held b.sink).isSome = true := by
                  simpa [bufGood] using hh
                rw [if_pos hh'] at hfo
                exact hfo
              · rw [if_neg hh, hFOb', hFOb]
                have hh' : ¬((G.held b.sink).isSome = true) := by
                  simpa [bufGood] using hh
                rw [if_neg hh'] at hfo
                exact hfo
        | rejected =>
            injection hss with h1 h2
            subst h1; subst h2
            obtain ⟨hWF1, hdisj⟩ := hconc
            have hFOb' : (bufGood G 0).FO { b with sink := s1 } = G.FO s1 := by
              show zipApp (G.FO s1) (G.den (effBuf G s1 b.buf)) = _
              rw [hbuf, effBuf_nil, FO_den_nil L]
            refine ⟨Or.inr ⟨hWF1, by simpa using hlen, fun h => Or.inl rfl⟩, ?_⟩
            rcases hdisj with ⟨hfo, hheld⟩ | ⟨hnone, hfo, hheld⟩
            · exact Or.inl ⟨by rw [hFOb', hFOb]; exact hfo,
                by show (if (0:Nat) = 0 then G.held s1 else none)
                      = (if (0:Nat) = 0 then G.held b.sink else none)
                   simpa using hheld⟩
            · refine Or.inr ⟨?_, by rw [hFOb', hFOb]; exact hfo, ?_⟩
              · show (if (0:Nat) = 0 then G.held b.sink else none).isNone = true
                simpa using hnone
              · show (if (0:Nat) = 0 then G.held s1 else none) = some v
                simpa using hheld
        | error e =>
            injection hss with h1 h2
            subst h1; subst h2
            trivial
      next hcap =>
        rcases hte : tryEmpty G.S b.buf b.sink with ⟨s1, q1, eo⟩
        rw [hte] at hss
        cases eo with
        | some e =>
            injection hss with h1 h2
            subst h1; subst h2
            trivial
        | none =>
            have hcoh0 : (G.held b.sink).isSome = true →
                ∃ w t, b.buf = w :: t ∧ G.held b.sink = some w := by
              intro h
              rcases hcohw h with h0 | h0
              · exact absurd h0 hcap
              · exact h0
            obtain ⟨hWF1, hacc, hcoh1, hlen1⟩ :=
              tryEmpty_spec L b.buf b.sink hWFin hcoh0 s1 q1 none hte rfl
            have hheldb : (bufGood G cap).held b = none := by
              show (if cap = 0 then G.held b.sink else none) = none
              rw [if_neg hcap]
            simp only at hss
            split at hss
            next hlt =>
              injection hss with h1 h2
              subst h1; subst h2
              refine ⟨?_, ?_, ?_⟩
              · refine Or.inr ⟨hWF1, by simp; omega, ?_⟩
                intro h
                obtain ⟨w, t, hq, hw⟩ := hcoh1 h
                exact Or.inr ⟨w, t ++ [v], by rw [hq]; rfl, hw⟩
              · show (if cap = 0 then G.held s1 else none).isNone = true
                rw [if_neg hcap]
                rfl
              · rw [if_neg (by rw [hheldb]; simp)]
                show zipApp (G.FO s1) (G.den (effBuf G s1 (q1 ++ [v])))
                  = zipApp (zipApp (G.FO b.sink) (G.den (effBuf G b.sink b.buf)))
                      (G.den [v])
                rw [effBuf_append_one q1 v hcoh1, L.den_app, ← zipApp_assoc, hacc]
            next hge =>
              injection hss with h1 h2
              subst h1; subst h2
              refine ⟨?_, Or.inl ⟨?_, ?_⟩⟩
              · refine Or.inr ⟨hWF1, le_trans hlen1 hlen, ?_⟩
                intro h
                exact Or.inr (hcoh1 h)
              · exact hacc
              · show (if cap = 0 then G.held s1 else none)
                  = (if cap = 0 then G.held b.sink else none)
                rw [if_neg hcap, if_neg hcap]
  · -- flush_law
    intro b b' res hWF hheld hss
    replace hss : bufFlush G.S b = (b', res) := hss
    unfold bufFlush at hss
    split at hss
    next e0 heq =>
      injection hss with h1 h2
      subst h1; subst h2
      trivial
    next heq =>
      have hWFs : G.WF b.sink ∧ b.buf.length ≤ cap ∧
          ((G.held b.sink).isSome = true →
            cap = 0 ∨ ∃ w t, b.buf = w :: t ∧ G.held b.sink = some w) := by
        rcases hWF with h | h
        · rw [heq] at h; simp at h
        · exact h
      obtain ⟨hWFin, hlen, hcohw⟩ := hWFs
      rcases hte : tryEmpty G.S b.buf b.sink with ⟨s1, q1, eo⟩
      rw [hte] at hss
      cases eo with
      | some e =>
          injection hss with h1 h2
          subst h1; subst h2
          trivial
      | none =>
          have hcoh0 : (G.held b.sink).isSome = true →
              ∃ w t, b.buf = w :: t ∧ G.held b.sink = some w := by
            intro h
            rcases hcohw h with h0 | h0
            · exfalso
              have hz : G.held b.sink = none := by
                have : (if cap = 0 then G.held b.sink else none) = none := hheld
                rw [if_pos h0] at this
                exact this
              rw [hz] at h
              simp at h
            · exact h0
          obtain ⟨hWF1, hacc, hcoh1, hlen1⟩ :=
            tryEmpty_spec L b.buf b.sink hWFin hcoh0 s1 q1 none hte rfl
          cases q1 with
          | cons w t =>
              injection hss with h1 h2
              subst h1; subst h2
              have hcapnz : ¬(cap = 0) := by
                intro h0
                have : b.buf.length = 0 := by omega
                have hb : b.buf = [] := List.length_eq_zero.mp this
                rw [hb] at hte
                simp only [tryEmpty, Prod.mk.injEq] at hte
                exact absurd hte.2.1 (by simp)
              refine ⟨?_, ?_, ?_⟩
              · refine Or.inr ⟨hWF1, le_trans hlen1 hlen, ?_⟩
                intro h
                exact Or.inr (hcoh1 h)
              · exact hacc
              · show (if cap = 0 then G.held s1 else none).isNone = true
                rw [if_neg hcapnz]
                rfl
          | nil =>
              have hheld1 : G.held s1 = none := by
                cases hx : G.held s1
                · rfl
                · obtain ⟨w, t, hq, -⟩ := hcoh1 (by simp [hx])
                  simp at hq
              simp only at hss
              rcases hf : G.S.poll_flush s1 with ⟨s2, r2⟩
              simp only [hf] at hss
              have hfc := L.flush_law s1 s2 r2 hWF1 hheld1 hf
              have hFOmid : zipApp (G.FO s1) (G.den []) =
                  zipApp (G.FO b.sink) (G.den (effBuf G b.sink b.buf)) := by
                rw [← effBuf_nil G s1]
                exact hacc
              cases r2 with
              | ready =>
                  injection hss with h1 h2
                  subst h1; subst h2
                  obtain ⟨hWF2, hfo2, hheld2, hrec⟩ := hfc
                  have hFO' : (bufGood G cap).FO (⟨s2, [], none⟩ : Buffer G.σ Nat Nat)
                      = G.FO s2 := by
                    show zipApp (G.FO s2) (G.den (effBuf G s2 [])) = _
                    rw [effBuf_nil, FO_den_nil L]
                  refine ⟨?_, ?_, ?_, ?_⟩
                  · refine Or.inr ⟨hWF2, by simp, ?_⟩
                    intro h
                    rw [Option.isNone_iff_eq_none.mp hheld2] at h
                    simp at h
                  · rw [hFO', hfo2, ← FO_den_nil L s1]
                    exact hFOmid
                  · show (if cap = 0 then G.held s2 else none).isNone = true
                    split
                    · exact hheld2
                    · rfl
                  · rw [hFO']
                    exact hrec
              | pending =>
                  injection hss with h1 h2
                  subst h1; subst h2
                  obtain ⟨hWF2, hfo2, hheld2⟩ := hfc
                  have hFO' : (bufGood G cap).FO (⟨s2, [], none⟩ : Buffer G.σ Nat Nat)
                      = G.FO s2 := by
                    show zipApp (G.FO s2) (G.den (effBuf G s2 [])) = _
                    rw [effBuf_nil, FO_den_nil L]
                  refine ⟨?_, ?_, ?_⟩
                  · refine Or.inr ⟨hWF2, by simp, ?_⟩
                    intro h
                    rw [Option.isNone_iff_eq_none.mp hheld2] at h
                    simp at h
                  · rw [hFO', hfo2, ← FO_den_nil L s1]
                    exact hFOmid
                  · show (if cap = 0 then G.held s2 else none).isNone = true
                    split
                    · exact hheld2
                    · rfl
              | error e =>
                  injection hss with h1 h2
                  subst h1; subst h2
                  trivial

theorem wtrySend_spec {G : GoodSink} (L : Laws G) (sk : G.σ)
    (sl0 : WSlot Nat Nat) (v : Nat) (w1 : With G.σ Nat Nat)
    (hw1 : wtrySend G.S id ⟨sk, sl0, none⟩ v = w1)
    (hWF : G.WF sk)
    (hcoh : (G.held sk).isSome = true → G.held sk = some v)
    (herr : w1.err = none) :
    G.WF w1.sink ∧
    ((G.held w1.sink).isSome = true →
      ∃ u, w1.slot = .buffered u ∧ G.held w1.sink = some u) ∧
    zipApp (G.FO w1.sink) (G.den (wContrib G w1.sink w1.slot))
      = zipApp (G.FO sk)
          (G.den (if (G.held sk).isSome then [] else [v])) := by
  unfold wtrySend at hw1
  rcases hsi : G.S.start_send sk v with ⟨s1, r⟩
  rw [hsi] at hw1
  have hconc := L.send_law sk v s1 r hWF hsi
  cases r with
  | accepted =>
      subst hw1
      obtain ⟨hWF1, hheld1, hfo⟩ := hconc
      have hheld1' := Option.isNone_iff_eq_none.mp hheld1
      refine ⟨hWF1, ?_, ?_⟩
      · intro h; rw [hheld1'] at h; simp at h
      · show zipApp (G.FO s1) (G.den (wContrib G s1 .empty)) = _
        show zipApp (G.FO s1) (G.den []) = _
        rw [FO_den_nil L]
        by_cases hh : (G.held sk).isSome = true
        · rw [if_pos hh] at hfo ⊢
          rw [hfo, FO_den_nil L]
        · rw [if_neg hh] at hfo ⊢
          exact hfo
  | rejected =>
      subst hw1
      obtain ⟨hWF1, hdisj⟩ := hconc
      rcases hdisj with ⟨hfo, hheld⟩ | ⟨hnone, hfo, hheld⟩
      · refine ⟨hWF1, ?_, ?_⟩
        · intro h
          rw [hheld] at h
          exact ⟨v, rfl, hheld.trans (hcoh h)⟩
        · show zipApp (G.FO s1) (G.den (wContrib G s1 (.buffered v))) = _
          rw [show wContrib G s1 (.buffered v)
              = (if (G.held s1).isSome then [] else [v]) from rfl,
            hheld, hfo]
      · refine ⟨hWF1, fun _ => ⟨v, rfl, hheld⟩, ?_⟩
        have hskn := Option.isNone_iff_eq_none.mp hnone
        show zipApp (G.FO s1) (G.den (wContrib G s1 (.buffered v))) = _
        rw [show wContrib G s1 (.buffered v) = ([] : List Nat) from by
            simp [wContrib, hheld],
          show (if (G.held sk).isSome then ([] : List Nat) else [v]) = [v] from by
            simp [hskn],
          FO_den_nil L, hfo]
  | error e =>
      subst hw1
      simp at herr

theorem wdrive_spec {G : GoodSink} (L : Laws G) (sk : G.σ)
    (sl : WSlot Nat Nat) (w1 : With G.σ Nat Nat)
    (hw1 : wdrive G.S id ⟨sk, sl, none⟩ = w1)
    (hWF : G.WF sk)
    (hcoh : (G.held sk).isSome = true →
      ∃ v, sl = .buffered v ∧ G.held sk = some v)
    (herr : w1.err = none) :
    G.WF w1.sink ∧
    ((G.held w1.sink).isSome = true →
      ∃ u, w1.slot = .buffered u ∧ G.held w1.sink = some u) ∧
    zipApp (G.FO w1.sink) (G.den (wContrib G w1.sink w1.slot))
      = zipApp (G.FO sk) (G.den (wContrib G sk sl)) := by
  cases sl with
  | empty =>
      subst hw1
      exact ⟨hWF, fun h => hcoh h, rfl⟩
  | buffered v =>
      have hcoh' : (G.held sk).isSome = true → G.held sk = some v := by
        intro h
        obtain ⟨u, hu, hh⟩ := hcoh h
        injection hu with hu'
        rw [hu']
        exact hh
      obtain ⟨h1, h2, h3⟩ := wtrySend_spec L sk (.buffered v) v w1 hw1 hWF hcoh' herr
      refine ⟨h1, h2, ?_⟩
      rw [h3]
      rfl
  | conv dl r =>
      have hskn : G.held sk = none := by
        cases hx : G.held sk
        · rfl
        · obtain ⟨u, hu, -⟩ := hcoh (by simp [hx])
          cases hu
      cases dl with
      | succ dl' =>
          have hw1' : w1 = ⟨sk, .conv dl' r, none⟩ := by rw [← hw1]; rfl
          subst hw1'
          refine ⟨hWF, ?_, ?_⟩
          · intro h; rw [hskn] at h; simp at h
          · show zipApp (G.FO sk) (G.den (wContrib G sk (.conv dl' r))) = _
            cases r <;> rfl
      | zero =>
          cases r with
          | error e =>
              subst hw1
              simp [wdrive] at herr
          | ok v =>
              have hcoh' : (G.held sk).isSome = true → G.held sk = some v := by
                intro h; rw [hskn] at h; simp at h
              obtain ⟨h1, h2, h3⟩ :=
                wtrySend_spec L sk (.buffered v) v w1 hw1 hWF hcoh' herr
              refine ⟨h1, h2, ?_⟩
              rw [h3]
              show _ = zipApp (G.FO sk) (G.den (wContrib G sk (.conv 0 (.ok v))))
              rw [if_neg (by rw [hskn]; simp)]
              rfl

theorem withGood_laws (G : GoodSink) (L : Laws G) (d f : Nat → Nat) :
    Laws (withGood G d f) := by
  refine ⟨?_, ?_, ?_, ?_, ?_, ?_⟩
  · intro xs ys
    show G.den ((xs ++ ys).map f) = _
    rw [List.map_append]
    exact L.den_app _ _
  · intro xs
    exact L.den_len _
  · exact L.den_nil
  · intro w
    show (zipApp (G.FO w.sink) (G.den (wContrib G w.sink w.slot))).length
      = (G.den []).length
    rw [zipApp_len, L.FO_len, L.den_len (wContrib G w.sink w.slot)]
    exact Nat.min_self _
  · -- send_law
    intro w u w' res hWF hss
    obtain ⟨sk, sl, er⟩ := w
    cases er with
    | some e =>
        replace hss : (⟨sk, sl, some e⟩, SendRes.error (ε := Nat) e) = (w', res) := hss
        injection hss with h1 h2
        subst h1; subst h2
        trivial
    | none =>
        have hWFs : G.WF sk ∧
            ((G.held sk).isSome = true →
              ∃ v, sl = .buffered v ∧ G.held sk = some v) := by
          rcases hWF with h | h
          · simp at h
          · exact h
        obtain ⟨hWFin, hcohw⟩ := hWFs
        replace hss : withSend G.S id (fun u => (d u, .ok (f u))) ⟨sk, sl, none⟩ u
            = (w', res) := hss
        unfold withSend at hss
        simp only at hss
        rcases hw1 : wdrive G.S id ⟨sk, sl, none⟩ with ⟨sk1, sl1, er1⟩
        rw [hw1] at hss
        cases er1 with
        | some e =>
            injection hss with h1 h2
            subst h1; subst h2
            trivial
        | none =>
            obtain ⟨hWF1, hcoh1, hacc⟩ :=
              wdrive_spec L sk sl ⟨sk1, sl1, none⟩ hw1 hWFin hcohw rfl
            cases sl1 with
            | empty =>
                injection hss with h1 h2
                subst h1; subst h2
                refine ⟨?_, rfl, ?_⟩
                · refine Or.inr ⟨hWF1, ?_⟩
                  intro h
                  obtain ⟨v, hv, -⟩ := hcoh1 h
                  cases hv
                · rw [if_neg (by simp [withGood])]
                  show zipApp (G.FO sk1)
                      (G.den (wContrib G sk1 (.conv (d u) (.ok (f u)))))
                    = zipApp (zipApp (G.FO sk) (G.den (wContrib G sk sl)))
                        (G.den ([u].map f))
                  rw [← hacc]
                  show zipApp (G.FO sk1) (G.den [f u])
                    = zipApp (zipApp (G.FO sk1) (G.den [])) (G.den [f u])
                  rw [FO_den_nil L]
            | buffered v =>
                injection hss with h1 h2
                subst h1; subst h2
                exact ⟨Or.inr ⟨hWF1, hcoh1⟩, Or.inl ⟨hacc, rfl⟩⟩
            | conv dl r =>
                injection hss with h1 h2
                subst h1; subst h2
                exact ⟨Or.inr ⟨hWF1, hcoh1⟩, Or.inl ⟨hacc, rfl⟩⟩
  · -- flush_law
    intro w w' res hWF hheld hss
    obtain ⟨sk, sl, er⟩ := w
    cases er with
    | some e =>
        replace hss : (⟨sk, sl, some e⟩, PollRes.error (ε := Nat) e) = (w', res) := hss
        injection hss with h1 h2
        subst h1; subst h2
        trivial
    | none =>
        have hWFs : G.WF sk ∧
            ((G.held sk).isSome = true →
              ∃ v, sl = .buffered v ∧ G.held sk = some v) := by
          rcases hWF with h | h
          · simp at h
          · exact h
        obtain ⟨hWFin, hcohw⟩ := hWFs
        replace hss : withFlush G.S id ⟨sk, sl, none⟩ = (w', res) := hss
        unfold withFlush at hss
        simp only at hss
        rcases hw1 : wdrive G.S id ⟨sk, sl, none⟩ with ⟨sk1, sl1, er1⟩
        rw [hw1] at hss
        cases er1 with
        | some e =>
            injection hss with h1 h2
            subst h1; subst h2
            trivial
        | none =>
            obtain ⟨hWF1, hcoh1, hacc⟩ :=
              wdrive_spec L sk sl ⟨sk1, sl1, none⟩ hw1 hWFin hcohw rfl
            cases sl1 with
            | empty =>
                have hheld1 : G.held sk1 = none := by
                  cases hx : G.held sk1
                  · rfl
                  · obtain ⟨v, hv, -⟩ := hcoh1 (by simp [hx])
                    cases hv
                simp only at hss
                rcases hf : G.S.poll_flush sk1 with ⟨s2, r2⟩
                simp only [hf] at hss
                have hfc := L.flush_law sk1 s2 r2 hWF1 hheld1 hf
                have hFOw1 : zipApp (G.FO sk1) (G.den (wContrib G sk1 .empty))
                    = zipApp (G.FO sk1) (G.den []) := rfl
                cases r2 with
                | ready =>
                    injection hss with h1 h2
                    subst h1; subst h2
                    obtain ⟨hWF2, hfo2, hheld2, hrec⟩ := hfc
                    refine ⟨?_, ?_, rfl, ?_⟩
                    · refine Or.inr ⟨hWF2, ?_⟩
                      intro h
                      rw [Option.isNone_iff_eq_none.mp hheld2] at h
                      simp at h
                    · show zipApp (G.FO s2) (G.den (wContrib G s2 .empty))
                        = zipApp (G.FO sk) (G.den (wContrib G sk sl))
                      show zipApp (G.FO s2) (G.den []) = _
                      rw [FO_den_nil L, hfo2, ← FO_den_nil L sk1]
                      exact hacc
                    · show zipApp (G.FO s2) (G.den (wContrib G s2 .empty))
                        = G.Rec s2
                      show zipApp (G.FO s2) (G.den []) = _
                      rw [FO_den_nil L]
                      exact hrec
                | pending =>
                    injection hss with h1 h2
                    subst h1; subst h2
                    obtain ⟨hWF2, hfo2, hheld2⟩ := hfc
                    refine ⟨?_, ?_, rfl⟩
                    · refine Or.inr ⟨hWF2, ?_⟩
                      intro h
                      rw [Option.isNone_iff_eq_none.mp hheld2] at h
                      simp at h
                    · show zipApp (G.FO s2) (G.den (wContrib G s2 .empty))
                        = zipApp (G.FO sk) (G.den (wContrib G sk sl))
                      show zipApp (G.FO s2) (G.den []) = _
                      rw [FO_den_nil L, hfo2, ← FO_den_nil L sk1]
                      exact hacc
                | error e =>
                    injection hss with h1 h2
                    subst h1; subst h2
                    trivial
            | buffered v =>
                injection hss with h1 h2
                subst h1; subst h2
                exact ⟨Or.inr ⟨hWF1, hcoh1⟩, hacc, rfl⟩
            | conv dl r =>
                injection hss with h1 h2
                subst h1; subst h2
                exact ⟨Or.inr ⟨hWF1, hcoh1⟩, hacc, rfl⟩

theorem fmDrain_spec {G : GoodSink} (L : Laws G) :
    ∀ (rest : List (Except Nat Nat)) (s : G.σ),
    G.WF s → G.held s = none →
    ∀ s' b' tl' eo, fmDrain G.S rest s = (s', b', tl', eo) →
    eo = none →
      G.WF s' ∧
      ((G.held s').isSome = true → ∃ v, b' = some v ∧ G.held s' = some v) ∧
      zipApp (G.FO s')
          (G.den ((if (G.held s').isSome then [] else b'.toList) ++ oks tl'))
        = zipApp (G.FO s) (G.den (oks rest)) := by
  intro rest
  induction rest with
  | nil =>
      intro s hWF hheld s' b' tl' eo hd _
      simp only [fmDrain, Prod.mk.injEq] at hd
      obtain ⟨h1, h2, h3, h4⟩ := hd
      subst h1; subst h2; subst h3; subst h4
      exact ⟨hWF, fun h => by rw [hheld] at h; simp at h,
        by rw [if_neg (by rw [hheld]; simp)]; rfl⟩
  | cons x tl ih =>
      intro s hWF hheld s' b' tl' eo hd heo
      cases x with
      | error e =>
          simp only [fmDrain, Prod.mk.injEq] at hd
          obtain ⟨h1, h2, h3, h4⟩ := hd
          subst h4
          exact absurd heo (by simp)
      | ok v =>
          rcases hsi : G.S.start_send s v with ⟨s1, r⟩
          rw [fmDrain, hsi] at hd
          have hconc := L.send_law s v s1 r hWF hsi
          cases r with
          | accepted =>
              simp only at hd
              obtain ⟨hWF1, hheld1, hfo⟩ := hconc
              have hheld1' := Option.isNone_iff_eq_none.mp hheld1
              obtain ⟨hWF', hcoh', hacc⟩ := ih s1 hWF1 hheld1' s' b' tl' eo hd heo
              refine ⟨hWF', hcoh', ?_⟩
              rw [hacc]
              rw [if_neg (by rw [hheld]; simp)] at hfo
              rw [hfo]
              show _ = zipApp (G.FO s) (G.den (v :: oks tl))
              rw [den_cons L v (oks tl), ← zipApp_assoc]
          | rejected =>
              simp only [Prod.mk.injEq] at hd
              obtain ⟨h1, h2, h3, h4⟩ := hd
              subst h1; subst h2; subst h3; subst h4
              obtain ⟨hWF1, hdisj⟩ := hconc
              rcases hdisj with ⟨hfo, hheld'⟩ | ⟨hnone, hfo, hheld'⟩
              · refine ⟨hWF1, fun h => by rw [hheld', hheld] at h; simp at h, ?_⟩
                rw [if_neg (by rw [hheld', hheld]; simp), hfo]
                rfl
              · refine ⟨hWF1, fun _ => ⟨v, rfl, hheld'⟩, ?_⟩
                rw [if_pos (by rw [hheld']; rfl), hfo]
                show zipApp (zipApp (G.FO s) (G.den [v])) (G.den (oks tl))
                  = zipApp (G.FO s) (G.den (v :: oks tl))
                rw [den_cons L v (oks tl), ← zipApp_assoc]
          | error e =>
              simp only [Prod.mk.injEq] at hd
              obtain ⟨h1, h2, h3, h4⟩ := hd
              subst h4
              exact absurd heo (by simp)

theorem fmDrive_spec {G : GoodSink} (L : Laws G) (sk : G.σ) (bf : Option Nat)
    (rest : List (Except Nat Nat)) (m1 : WithFlatMap G.σ Nat Nat)
    (hm1 : fmDrive G.S ⟨sk, bf, rest, none⟩ = m1)
    (hWF : G.WF sk)
    (hcoh : (G.held sk).isSome = true →
      ∃ v, bf = some v ∧ G.held sk = some v)
    (herr : m1.err = none) :
    G.WF m1.sink ∧
    ((G.held m1.sink).isSome = true →
      ∃ v, m1.buffered = some v ∧ G.held m1.sink = some v) ∧
    zipApp (G.FO m1.sink)
        (G.den ((if (G.held m1.sink).isSome then [] else m1.buffered.toList)
          ++ oks m1.stm))
      = zipApp (G.FO sk)
          (G.den ((if (G.held sk).isSome then [] else bf.toList) ++ oks rest)) := by
  cases bf with
  | none =>
      have hskn : G.held sk = none := by
        cases hx : G.held sk
        · rfl
        · obtain ⟨v, hv, -⟩ := hcoh (by simp [hx])
          cases hv
      rcases hd : fmDrain G.S rest sk with ⟨s', b', tl', eo⟩
      have hm1' : m1 = ⟨s', b', tl', eo⟩ := by
        rw [← hm1]
        show fmDrive G.S ⟨sk, none, rest, none⟩ = _
        unfold fmDrive
        rw [hd]
      subst hm1'
      cases eo with
      | some e => simp at herr
      | none =>
          obtain ⟨hWF', hcoh', hacc⟩ :=
            fmDrain_spec L rest sk hWF hskn s' b' tl' none hd rfl
          refine ⟨hWF', hcoh', ?_⟩
          rw [hacc, if_neg (by rw [hskn]; simp)]
          rfl
  | some v =>
      have hcoh' : (G.held sk).isSome = true → G.held sk = some v := by
        intro h
        obtain ⟨u, hu, hh⟩ := hcoh h
        injection hu with hu'
        rw [hu']
        exact hh
      rcases hsi : G.S.start_send sk v with ⟨s1, r⟩
      have hconc := L.send_law sk v s1 r hWF hsi
      cases r with
      | accepted =>
          obtain ⟨hWF1, hheld1, hfo⟩ := hconc
          have hheld1' := Option.isNone_iff_eq_none.mp hheld1
          rcases hd : fmDrain G.S rest s1 with ⟨s', b', tl', eo⟩
          have hm1' : m1 = ⟨s', b', tl', eo⟩ := by
            rw [← hm1]
            show fmDrive G.S ⟨sk, some v, rest, none⟩ = _
            unfold fmDrive
            simp only [hsi, hd]
          subst hm1'
          cases eo with
          | some e => simp at herr
          | none =>
              obtain ⟨hWF', hcoh'', hacc⟩ :=
                fmDrain_spec L rest s1 hWF1 hheld1' s' b' tl' none hd rfl
              refine ⟨hWF', hcoh'', ?_⟩
              rw [hacc]
              by_cases hh : (G.held sk).isSome = true
              · rw [if_pos hh] at hfo ⊢
                rw [hfo]
                rfl
              · rw [if_neg hh] at hfo ⊢
                rw [hfo]
                show _ = zipApp (G.FO sk) (G.den (v :: oks rest))
                rw [den_cons L v (oks rest), ← zipApp_assoc]
      | rejected =>
          obtain ⟨hWF1, hdisj⟩ := hconc
          have hm1' : m1 = ⟨s1, some v, rest, none⟩ := by
            rw [← hm1]
            show fmDrive G.S ⟨sk, some v, rest, none⟩ = _
            unfold fmDrive
            simp only [hsi]
          subst hm1'
          rcases hdisj with ⟨hfo, hheld'⟩ | ⟨hnone, hfo, hheld'⟩
          · refine ⟨hWF1, ?_, ?_⟩
            · intro h
              rw [hheld'] at h
              exact ⟨v, rfl, hheld'.trans (hcoh' h)⟩
            · show zipApp (G.FO s1)
                  (G.den ((if (G.held s1).isSome then [] else [v]) ++ oks rest)) = _
              rw [hheld', hfo]
              rfl
          · refine ⟨hWF1, fun _ => ⟨v, rfl, hheld'⟩, ?_⟩
            have hskn := Option.isNone_iff_eq_none.mp hnone
            show zipApp (G.FO s1)
                (G.den ((if (G.held s1).isSome then [] else [v]) ++ oks rest)) = _
            rw [if_pos (by rw [hheld']; rfl), if_neg (by rw [hskn]; simp), hfo]
            show zipApp (zipApp (G.FO sk) (G.den [v])) (G.den (oks rest))
              = zipApp (G.FO sk) (G.den (v :: oks rest))
            rw [den_cons L v (oks rest), ← zipApp_assoc]
      | error e =>
          have hm1' : m1 = ⟨s1, some v, rest, some e⟩ := by
            rw [← hm1]
            show fmDrive G.S ⟨sk, some v, rest, none⟩ = _
            unfold fmDrive
            simp only [hsi]
          subst hm1'
          simp at herr

theorem fmGood_laws (G : GoodSink) (L : Laws G) (f : Nat → List Nat) :
    Laws (fmGood G f) := by
  refine ⟨?_, ?_, ?_, ?_, ?_, ?_⟩
  · intro xs ys
    show G.den ((xs ++ ys).flatMap f) = _
    rw [List.flatMap_append]
    exact L.den_app _ _
  · intro xs
    exact L.den_len _
  · exact L.den_nil
  · intro m
    show (zipApp (G.FO m.sink) (G.den _)).length = (G.den []).length
    rw [zipApp_len, L.FO_len,
      L.den_len ((if (G.held m.sink).isSome then [] else m.buffered.toList)
        ++ oks m.stm)]
    exact Nat.min_self _
  · -- send_law
    intro m u m' res hWF hss
    obtain ⟨sk, bf, rest, er⟩ := m
    cases er with
    | some e =>
        replace hss : ((⟨sk, bf, rest, some e⟩ : WithFlatMap G.σ Nat Nat),
            SendRes.error (ε := Nat) e) = (m', res) := hss
        injection hss with h1 h2
        subst h1; subst h2
        trivial
    | none =>
        have hWFs : G.WF sk ∧
            ((G.held sk).isSome = true →
              ∃ v, bf = some v ∧ G.held sk = some v) := by
          rcases hWF with h | h
          · simp at h
          · exact h
        obtain ⟨hWFin, hcohw⟩ := hWFs
        replace hss : fmSend G.S (fun u => (f u).map .ok) ⟨sk, bf, rest, none⟩ u
            = (m', res) := hss
        unfold fmSend at hss
        simp only at hss
        rcases hd1 : fmDrive G.S ⟨sk, bf, rest, none⟩ with ⟨sk1, bf1, tl1, er1⟩
        rw [hd1] at hss
        cases er1 with
        | some e =>
            injection hss with h1 h2
            subst h1; subst h2
            trivial
        | none =>
            obtain ⟨hWF1, hcoh1, hacc⟩ :=
              fmDrive_spec L sk bf rest ⟨sk1, bf1, tl1, none⟩ hd1 hWFin hcohw rfl
            cases bf1 with
            | some w =>
                injection hss with h1 h2
                subst h1; subst h2
                exact ⟨Or.inr ⟨hWF1, hcoh1⟩, Or.inl ⟨hacc, rfl⟩⟩
            | none =>
                have hheld1n : G.held sk1 = none := by
                  cases hx : G.held sk1
                  · rfl
                  · obtain ⟨v, hv, -⟩ := hcoh1 (by simp [hx])
                    cases hv
                cases tl1 with
                | cons x xs =>
                    injection hss with h1 h2
                    subst h1; subst h2
                    exact ⟨Or.inr ⟨hWF1, hcoh1⟩, Or.inl ⟨hacc, rfl⟩⟩
                | nil =>
                    injection hss with h1 h2
                    subst h1; subst h2
                    refine ⟨?_, rfl, ?_⟩
                    · refine Or.inr ⟨hWF1, ?_⟩
                      intro h
                      rw [hheld1n] at h
                      simp at h
                    · rw [if_neg (by simp [fmGood])]
                      show zipApp (G.FO sk1)
                          (G.den ((if (G.held sk1).isSome then []
                            else (none : Option Nat).toList) ++ oks ((f u).map .ok)))
                        = zipApp
                            (zipApp (G.FO sk)
                              (G.den ((if (G.held sk).isSome then []
                                else bf.toList) ++ oks rest)))
                            (G.den ([u].flatMap f))
                      rw [if_neg (by rw [hheld1n]; simp), ← hacc,
                        if_neg (by rw [hheld1n]; simp)]
                      show zipApp (G.FO sk1) (G.den (oks ((f u).map .ok)))
                        = zipApp (zipApp (G.FO sk1) (G.den (oks []))) (G.den ([u].flatMap f))
                      rw [oks_map_ok]
                      show _ = zipApp (zipApp (G.FO sk1) (G.den [])) (G.den ([u].flatMap f))
                      rw [FO_den_nil L,
                        show [u].flatMap f = f u from by simp]
  · -- flush_law
    intro m m' res hWF hheld hss
    obtain ⟨sk, bf, rest, er⟩ := m
    cases er with
    | some e =>
        replace hss : ((⟨sk, bf, rest, some e⟩ : WithFlatMap G.σ Nat Nat),
            PollRes.error (ε := Nat) e) = (m', res) := hss
        injection hss with h1 h2
        subst h1; subst h2
        trivial
    | none =>
        have hWFs : G.WF sk ∧
            ((G.held sk).isSome = true →
              ∃ v, bf = some v ∧ G.held sk = some v) := by
          rcases hWF with h | h
          · simp at h
          · exact h
        obtain ⟨hWFin, hcohw⟩ := hWFs
        replace hss : fmFlush G.S ⟨sk, bf, rest, none⟩ = (m', res) := hss
        unfold fmFlush at hss
        simp only at hss
        rcases hd1 : fmDrive G.S ⟨sk, bf, rest, none⟩ with ⟨sk1, bf1, tl1, er1⟩
        rw [hd1] at hss
        cases er1 with
        | some e =>
            injection hss with h1 h2
            subst h1; subst h2
            trivial
        | none =>
            obtain ⟨hWF1, hcoh1, hacc⟩ :=
              fmDrive_spec L sk bf rest ⟨sk1, bf1, tl1, none⟩ hd1 hWFin hcohw rfl
            cases bf1 with
            | some w =>
                injection hss with h1 h2
                subst h1; subst h2
                exact ⟨Or.inr ⟨hWF1, hcoh1⟩, hacc, rfl⟩
            | none =>
                have hheld1n : G.held sk1 = none := by
                  cases hx : G.held sk1
                  · rfl
                  · obtain ⟨v, hv, -⟩ := hcoh1 (by simp [hx])
                    cases hv
                cases tl1 with
                | cons x xs =>
                    injection hss with h1 h2
                    subst h1; subst h2
                    exact ⟨Or.inr ⟨hWF1, hcoh1⟩, hacc, rfl⟩
                | nil =>
                    have hFOsk1 : zipApp (G.FO sk1)
                        (G.den ((if (G.held sk1).isSome then []
                          else (none : Option Nat).toList) ++ oks []))
                        = G.FO sk1 := by
                      rw [if_neg (by rw [hheld1n]; simp)]
                      show zipApp (G.FO sk1) (G.den []) = _
                      exact FO_den_nil L sk1
                    simp only at hss
                    rcases hf2 : G.S.poll_flush sk1 with ⟨s2, r2⟩
                    simp only [hf2] at hss
                    have hfc := L.flush_law sk1 s2 r2 hWF1 hheld1n hf2
                    cases r2 with
                    | ready =>
                        injection hss with h1 h2
                        subst h1; subst h2
                        obtain ⟨hWF2, hfo2, hheld2, hrec⟩ := hfc
                        have hheld2n := Option.isNone_iff_eq_none.mp hheld2
                        refine ⟨?_, ?_, rfl, ?_⟩
                        · refine Or.inr ⟨hWF2, ?_⟩
                          intro h
                          rw [hheld2n] at h
                          simp at h
                        · show zipApp (G.FO s2)
                              (G.den ((if (G.held s2).isSome then []
                                else (none : Option Nat).toList) ++ oks [])) = _
                          rw [if_neg (by rw [hheld2n]; simp)]
                          show zipApp (G.FO s2) (G.den []) = _
                          rw [FO_den_nil L, hfo2, ← hFOsk1]
                          exact hacc
                        · show zipApp (G.FO s2)
                              (G.den ((if (G.held s2).isSome then []
                                else (none : Option Nat).toList) ++ oks []))
                            = G.Rec s2
                          rw [if_neg (by rw [hheld2n]; simp)]
                          show zipApp (G.FO s2) (G.den []) = _
                          rw [FO_den_nil L]
                          exact hrec
                    | pending =>
                        injection hss with h1 h2
                        subst h1; subst h2
                        obtain ⟨hWF2, hfo2, hheld2⟩ := hfc
                        have hheld2n := Option.isNone_iff_eq_none.mp hheld2
                        refine ⟨?_, ?_, rfl⟩
                        · refine Or.inr ⟨hWF2, ?_⟩
                          intro h
                          rw [hheld2n] at h
                          simp at h
                        · show zipApp (G.FO s2)
                              (G.den ((if (G.held s2).isSome then []
                                else (none : Option Nat).toList) ++ oks [])) = _
                          rw [if_neg (by rw [hheld2n]; simp)]
                          show zipApp (G.FO s2) (G.den []) = _
                          rw [FO_den_nil L, hfo2, ← hFOsk1]
                          exact hacc
                    | error e =>
                        injection hss with h1 h2
                        subst h1; subst h2
                        trivial

theorem fanTry_true (S : Sink σ ι ε) (s : σ) (w : ι) :
    fanTry S true s w = (s, true, none) := rfl

theorem fanSide {G : GoodSink} (L : Laws G) {s s' : G.σ} {w : Nat}
    (a : Bool) {b : Bool} {eo : Option Nat}
    (ht : fanTry G.S a s w = (s', b, eo))
    (hWF : G.WF s)
    (hcoh : (G.held s).isSome = true → G.held s = some w)
    (hskip : a = true → (G.held s).isNone = true)
    (heo : eo = none) :
    G.WF s' ∧
    ((G.held s').isSome = true → G.held s' = some w) ∧
    (b = true → (G.held s').isNone = true) ∧
    zipApp (G.FO s') (G.den (fanContrib G s' b w))
      = zipApp (G.FO s) (G.den (fanContrib G s a w)) := by
  cases a with
  | true =>
      rw [fanTry_true] at ht
      injection ht with h1 h2
      injection h2 with h2 h3
      subst h1; subst h2; subst h3
      exact ⟨hWF, fun h => hcoh h, fun _ => hskip rfl, rfl⟩
  | false =>
      unfold fanTry at ht
      rw [if_neg (by simp)] at ht
      rcases hsi : G.S.start_send s w with ⟨s1, r⟩
      rw [hsi] at ht
      have hconc := L.send_law s w s1 r hWF hsi
      cases r with
      | accepted =>
          injection ht with h1 h2
          injection h2 with h2 h3
          subst h1; subst h2; subst h3
          obtain ⟨hWF1, hheld1, hfo⟩ := hconc
          have hheld1' := Option.isNone_iff_eq_none.mp hheld1
          refine ⟨hWF1, fun h => by rw [hheld1'] at h; simp at h,
            fun _ => hheld1, ?_⟩
          show zipApp (G.FO s1) (G.den (fanContrib G s1 true w)) = _
          rw [show fanContrib G s1 true w = ([] : List Nat) from rfl, FO_den_nil L]
          by_cases hh : (G.held s).isSome = true
          · rw [if_pos hh] at hfo
            rw [hfo, show fanContrib G s false w = ([] : List Nat) from by
                simp [fanContrib, hh], FO_den_nil L]
          · rw [if_neg hh] at hfo
            rw [hfo, show fanContrib G s false w = [w] from by
                simp [fanContrib, hh]]
      | rejected =>
          injection ht with h1 h2
          injection h2 with h2 h3
          subst h1; subst h2; subst h3
          obtain ⟨hWF1, hdisj⟩ := hconc
          rcases hdisj with ⟨hfo, hheld⟩ | ⟨hnone, hfo, hheld⟩
          · refine ⟨hWF1, ?_, by simp, ?_⟩
            · intro h
              rw [hheld] at h ⊢
              exact hcoh h
            · show zipApp (G.FO s1) (G.den (fanContrib G s1 false w)) = _
              rw [show fanContrib G s1 false w = fanContrib G s false w from by
                  simp [fanContrib, hheld], hfo]
          · have hskn := Option.isNone_iff_eq_none.mp hnone
            refine ⟨hWF1, fun _ => hheld, by simp, ?_⟩
            show zipApp (G.FO s1) (G.den (fanContrib G s1 false w)) = _
            rw [show fanContrib G s1 false w = ([] : List Nat) from by
                simp [fanContrib, hheld],
              FO_den_nil L, hfo,
              show fanContrib G s false w = [w] from by
                simp [fanContrib, hskn]]
      | error e =>
          injection ht with h1 h2
          injection h2 with h2 h3
          subst h3
          exact absurd heo (by simp)

theorem fanGood_laws (G₁ G₂ : GoodSink) (L₁ : Laws G₁) (L₂ : Laws G₂) :
    Laws (fanGood G₁ G₂) := by
  refine ⟨?_, ?_, ?_, ?_, ?_, ?_⟩
  · intro xs ys
    show G₁.den (xs ++ ys) ++ G₂.den (xs ++ ys)
      = zipApp (G₁.den xs ++ G₂.den xs) (G₁.den ys ++ G₂.den ys)
    rw [L₁.den_app, L₂.den_app,
      zipApp_append (G₁.den xs) (G₁.den ys) (G₂.den xs) (G₂.den ys)
        (by rw [L₁.den_len xs, L₁.den_len ys])]
  · intro xs
    show (G₁.den xs ++ G₂.den xs).length = (G₁.den [] ++ G₂.den []).length
    rw [List.length_append, List.length_append, L₁.den_len xs, L₂.den_len xs]
  · show G₁.den [] ++ G₂.den []
      = List.replicate (G₁.den [] ++ G₂.den []).length []
    rw [List.length_append]
    conv_lhs => rw [L₁.den_nil, L₂.den_nil]
    rw [← List.replicate_add]
  · intro t
    rcases t with ⟨s1, s2, sl, er⟩
    cases sl with
    | none =>
        show (zipApp (G₁.FO s1) (G₁.den []) ++
            zipApp (G₂.FO s2) (G₂.den [])).length
          = (G₁.den [] ++ G₂.den []).length
        rw [List.length_append, List.length_append, zipApp_len, zipApp_len,
          L₁.FO_len, L₂.FO_len, Nat.min_self, Nat.min_self]
    | some p =>
        rcases p with ⟨w, b1, b2⟩
        show (zipApp (G₁.FO s1) (G₁.den (fanContrib G₁ s1 b1 w)) ++
            zipApp (G₂.FO s2) (G₂.den (fanContrib G₂ s2 b2 w))).length
          = (G₁.den [] ++ G₂.den []).length
        rw [List.length_append, List.length_append, zipApp_len, zipApp_len,
          L₁.FO_len, L₂.FO_len, L₁.den_len (fanContrib G₁ s1 b1 w),
          L₂.den_len (fanContrib G₂ s2 b2 w), Nat.min_self, Nat.min_self]
  · -- send_law
    intro t v t' res hWF hss
    replace hss : fanSend G₁.S G₂.S t v = (t', res) := hss
    rcases t with ⟨s1, s2, sl, er⟩
    cases er with
    | some e =>
        unfold fanSend at hss
        simp only at hss
        injection hss with h1 h2
        subst h2
        trivial
    | none =>
        cases sl with
        | none =>
            have hWF' : G₁.WF s1 ∧ G₂.WF s2 ∧
                ((G₁.held s1).isNone = true ∧ (G₂.held s2).isNone = true) := by
              rcases hWF with h | h
              · simp at h
              · exact h
            obtain ⟨hWF1, hWF2, h1n, h2n⟩ := hWF'
            have h1eq : G₁.held s1 = none := Option.isNone_iff_eq_none.mp h1n
            have h2eq : G₂.held s2 = none := Option.isNone_iff_eq_none.mp h2n
            have hc1 : fanContrib G₁ s1 false v = [v] := by
              simp [fanContrib, h1eq]
            have hc2 : fanContrib G₂ s2 false v = [v] := by
              simp [fanContrib, h2eq]
            unfold fanSend at hss
            simp only [Option.getD] at hss
            rcases hq1 : fanTry G₁.S false s1 v with ⟨s1', bb1, e1⟩
            rw [hq1] at hss
            rcases hq2 : fanTry G₂.S false s2 v with ⟨s2', bb2, e2⟩
            rw [hq2] at hss
            simp only at hss
            cases e1 with
            | some e =>
                simp only at hss
                injection hss with h1 h2
                subst h2
                trivial
            | none =>
                simp only at hss
                cases e2 with
                | some e =>
                    simp only at hss
                    injection hss with h1 h2
                    subst h2
                    trivial
                | none =>
                    obtain ⟨hA1, hC1, hB1, hE1⟩ := fanSide L₁ false hq1 hWF1
                      (fun h => by rw [h1eq] at h; simp at h) (by simp) rfl
                    obtain ⟨hA2, hC2, hB2, hE2⟩ := fanSide L₂ false hq2 hWF2
                      (fun h => by rw [h2eq] at h; simp at h) (by simp) rfl
                    rw [hc1] at hE1
                    rw [hc2] at hE2
                    by_cases hb : (bb1 && bb2) = true
                    · rw [if_pos hb] at hss
                      injection hss with h1 h2
                      subst h2
                      subst h1
                      rw [Bool.and_eq_true] at hb
                      obtain ⟨hb1, hb2⟩ := hb
                      subst hb1
                      subst hb2
                      rw [show fanContrib G₁ s1' true v = ([] : List Nat)
                        from rfl] at hE1
                      rw [show fanContrib G₂ s2' true v = ([] : List Nat)
                        from rfl] at hE2
                      refine ⟨Or.inr ⟨hA1, hA2, hB1 rfl, hB2 rfl⟩, rfl, ?_⟩
                      show zipApp (G₁.FO s1') (G₁.den []) ++
                          zipApp (G₂.FO s2') (G₂.den [])
                        = zipApp (zipApp (G₁.FO s1) (G₁.den []) ++
                            zipApp (G₂.FO s2) (G₂.den []))
                            (G₁.den [v] ++ G₂.den [v])
                      rw [FO_den_nil L₁ s1, FO_den_nil L₂ s2,
                        zipApp_append (G₁.FO s1) (G₁.den [v])
                          (G₂.FO s2) (G₂.den [v])
                          (by rw [L₁.FO_len, L₁.den_len [v]]),
                        hE1, hE2]
                    · rw [if_neg hb] at hss
                      injection hss with h1 h2
                      subst h2
                      subst h1
                      rw [Bool.and_eq_true] at hb
                      refine ⟨Or.inr ⟨hA1, hA2, hb, hB1, hB2, hC1, hC2⟩,
                        Or.inr ⟨rfl, ?_, rfl⟩⟩
                      show zipApp (G₁.FO s1')
                            (G₁.den (fanContrib G₁ s1' bb1 v)) ++
                          zipApp (G₂.FO s2')
                            (G₂.den (fanContrib G₂ s2' bb2 v))
                        = zipApp (zipApp (G₁.FO s1) (G₁.den []) ++
                            zipApp (G₂.FO s2) (G₂.den []))
                            (G₁.den [v] ++ G₂.den [v])
                      rw [FO_den_nil L₁ s1, FO_den_nil L₂ s2,
                        zipApp_append (G₁.FO s1) (G₁.den [v])
                          (G₂.FO s2) (G₂.den [v])
                          (by rw [L₁.FO_len, L₁.den_len [v]]),
                        hE1, hE2]
        | some p =>
            rcases p with ⟨w, a1, a2⟩
            have hWF' : G₁.WF s1 ∧ G₂.WF s2 ∧
                (¬(a1 = true ∧ a2 = true) ∧
                  (a1 = true → (G₁.held s1).isNone = true) ∧
                  (a2 = true → (G₂.held s2).isNone = true) ∧
                  ((G₁.held s1).isSome = true → G₁.held s1 = some w) ∧
                  ((G₂.held s2).isSome = true → G₂.held s2 = some w)) := by
              rcases hWF with h | h
              · simp at h
              · exact h
            obtain ⟨hWF1, hWF2, hnb, hsk1, hsk2, hco1, hco2⟩ := hWF'
            unfold fanSend at hss
            simp only [Option.getD] at hss
            rcases hq1 : fanTry G₁.S a1 s1 w with ⟨s1', bb1, e1⟩
            rw [hq1] at hss
            rcases hq2 : fanTry G₂.S a2 s2 w with ⟨s2', bb2, e2⟩
            rw [hq2] at hss
            simp only at hss
            cases e1 with
            | some e =>
                simp only at hss
                injection hss with h1 h2
                subst h2
                trivial
            | none =>
                simp only at hss
                cases e2 with
                | some e =>
                    simp only at hss
                    injection hss with h1 h2
                    subst h2
                    trivial
                | none =>
                    obtain ⟨hA1, hC1, hB1, hE1⟩ :=
                      fanSide L₁ a1 hq1 hWF1 hco1 hsk1 rfl
                    obtain ⟨hA2, hC2, hB2, hE2⟩ :=
                      fanSide L₂ a2 hq2 hWF2 hco2 hsk2 rfl
                    by_cases hb : (bb1 && bb2) = true
                    · rw [if_pos hb] at hss
                      injection hss with h1 h2
                      subst h2
                      subst h1
                      rw [Bool.and_eq_true] at hb
                      obtain ⟨hb1, hb2⟩ := hb
                      subst hb1
                      subst hb2
                      rw [show fanContrib G₁ s1' true w = ([] : List Nat)
                        from rfl] at hE1
                      rw [show fanContrib G₂ s2' true w = ([] : List Nat)
                        from rfl] at hE2
                      refine ⟨Or.inr ⟨hA1, hA2, hB1 rfl, hB2 rfl⟩, rfl, ?_⟩
                      show zipApp (G₁.FO s1') (G₁.den []) ++
                          zipApp (G₂.FO s2') (G₂.den [])
                        = zipApp (G₁.FO s1)
                            (G₁.den (fanContrib G₁ s1 a1 w)) ++
                          zipApp (G₂.FO s2)
                            (G₂.den (fanContrib G₂ s2 a2 w))
                      rw [hE1, hE2]
                    · rw [if_neg hb] at hss
                      injection hss with h1 h2
                      subst h2
                      subst h1
                      rw [Bool.and_eq_true] at hb
                      refine ⟨Or.inr ⟨hA1, hA2, hb, hB1, hB2, hC1, hC2⟩,
                        Or.inl ⟨?_, rfl⟩⟩
                      show zipApp (G₁.FO s1')
                            (G₁.den (fanContrib G₁ s1' bb1 w)) ++
                          zipApp (G₂.FO s2')
                            (G₂.den (fanContrib G₂ s2' bb2 w))
                        = zipApp (G₁.FO s1)
                            (G₁.den (fanContrib G₁ s1 a1 w)) ++
                          zipApp (G₂.FO s2)
                            (G₂.den (fanContrib G₂ s2 a2 w))
                      rw [hE1, hE2]
  · -- flush_law
    intro t t' res hWF hheld hfl
    replace hfl : fanFlush G₁.S G₂.S t = (t', res) := hfl
    rcases t with ⟨s1, s2, sl, er⟩
    have hsl : sl = none := by
      cases sl with
      | none => rfl
      | some p => simp [fanGood] at hheld
    subst hsl
    cases er with
    | some e =>
        unfold fanFlush at hfl
        simp only at hfl
        injection hfl with h1 h2
        subst h2
        trivial
    | none =>
        have hWF' : G₁.WF s1 ∧ G₂.WF s2 ∧
            ((G₁.held s1).isNone = true ∧ (G₂.held s2).isNone = true) := by
          rcases hWF with h | h
          · simp at h
          · exact h
        obtain ⟨hWF1, hWF2, h1n, h2n⟩ := hWF'
        unfold fanFlush at hfl
        simp only at hfl
        rcases hp1 : G₁.S.poll_flush s1 with ⟨s1', r1⟩
        rcases hp2 : G₂.S.poll_flush s2 with ⟨s2', r2⟩
        simp only [hp1, hp2] at hfl
        have hF1 := L₁.flush_law s1 s1' r1 hWF1
          (Option.isNone_iff_eq_none.mp h1n) hp1
        have hF2 := L₂.flush_law s2 s2' r2 hWF2
          (Option.isNone_iff_eq_none.mp h2n) hp2
        cases r1 with
        | error e =>
            simp only at hfl
            injection hfl with h1 h2
            subst h2
            trivial
        | pending =>
            obtain ⟨hA1, hFO1, hN1⟩ := hF1
            simp only at hfl
            cases r2 with
            | error e =>
                simp only at hfl
                injection hfl with h1 h2
                subst h2
                trivial
            | pending =>
                obtain ⟨hA2, hFO2, hN2⟩ := hF2
                simp only at hfl
                injection hfl with h1 h2
                subst h2
                subst h1
                refine ⟨Or.inr ⟨hA1, hA2, hN1, hN2⟩, ?_, rfl⟩
                show zipApp (G₁.FO s1') (G₁.den []) ++
                    zipApp (G₂.FO s2') (G₂.den [])
                  = zipApp (G₁.FO s1) (G₁.den []) ++
                    zipApp (G₂.FO s2) (G₂.den [])
                rw [FO_den_nil L₁ s1', FO_den_nil L₂ s2',
                  FO_den_nil L₁ s1, FO_den_nil L₂ s2, hFO1, hFO2]
            | ready =>
                obtain ⟨hA2, hFO2, hN2, hR2⟩ := hF2
                simp only at hfl
                injection hfl with h1 h2
                subst h2
                subst h1
                refine ⟨Or.inr ⟨hA1, hA2, hN1, hN2⟩, ?_, rfl⟩
                show zipApp (G₁.FO s1') (G₁.den []) ++
                    zipApp (G₂.FO s2') (G₂.den [])
                  = zipApp (G₁.FO s1) (G₁.den []) ++
                    zipApp (G₂.FO s2) (G₂.den [])
                rw [FO_den_nil L₁ s1', FO_den_nil L₂ s2',
                  FO_den_nil L₁ s1, FO_den_nil L₂ s2, hFO1, hFO2]
        | ready =>
            obtain ⟨hA1, hFO1, hN1, hR1⟩ := hF1
            simp only at hfl
            cases r2 with
            | error e =>
                simp only at hfl
                injection hfl with h1 h2
                subst h2
                trivial
            | pending =>
                obtain ⟨hA2, hFO2, hN2⟩ := hF2
                simp only at hfl
                injection hfl with h1 h2
                subst h2
                subst h1
                refine ⟨Or.inr ⟨hA1, hA2, hN1, hN2⟩, ?_, rfl⟩
                show zipApp (G₁.FO s1') (G₁.den []) ++
                    zipApp (G₂.FO s2') (G₂.den [])
                  = zipApp (G₁.FO s1) (G₁.den []) ++
                    zipApp (G₂.FO s2) (G₂.den [])
                rw [FO_den_nil L₁ s1', FO_den_nil L₂ s2',
                  FO_den_nil L₁ s1, FO_den_nil L₂ s2, hFO1, hFO2]
            | ready =>
                obtain ⟨hA2, hFO2, hN2, hR2⟩ := hF2
                simp only at hfl
                injection hfl with h1 h2
                subst h2
                subst h1
                refine ⟨Or.inr ⟨hA1, hA2, hN1, hN2⟩, ?_, rfl, ?_⟩
                · show zipApp (G₁.FO s1') (G₁.den []) ++
                      zipApp (G₂.FO s2') (G₂.den [])
                    = zipApp (G₁.FO s1) (G₁.den []) ++
                      zipApp (G₂.FO s2) (G₂.den [])
                  rw [FO_den_nil L₁ s1', FO_den_nil L₂ s2',
                    FO_den_nil L₁ s1, FO_den_nil L₂ s2, hFO1, hFO2]
                · show zipApp (G₁.FO s1') (G₁.den []) ++
                      zipApp (G₂.FO s2') (G₂.den [])
                    = G₁.Rec s1' ++ G₂.Rec s2'
                  rw [FO_den_nil L₁ s1', FO_den_nil L₂ s2', hR1, hR2]

/-- Every adapter stack satisfies the accounting laws. -/
theorem stack_laws (st : Stack) : Laws st.toGood := by
  induction st with
  | base p => exact recGood_laws
  | buffer cap r ih => exact bufGood_laws r.toGood ih cap
  | withF d f r ih => exact withGood_laws r.toGood ih d f
  | flatMap f r ih => exact fmGood_laws r.toGood ih f
  | fanout l r ihl ihr => exact fanGood_laws l.toGood r.toGood ihl ihr

/-- A freshly composed stack holds no partially sent item. -/
theorem stack_init_held (st : Stack) : st.toGood.held st.init = none := by
  induction st with
  | base p => rfl
  | buffer cap r ih =>
      show (if cap = 0 then r.toGood.held r.init else none) = none
      by_cases h : cap = 0
      · rw [if_pos h]; exact ih
      · rw [if_neg h]
  | withF d f r ih => rfl
  | flatMap f r ih => rfl
  | fanout l r ihl ihr => rfl

/-- A freshly composed stack is well formed. -/
theorem stack_init_WF (st : Stack) : st.toGood.WF st.init := by
  induction st with
  | base p => trivial
  | buffer cap r ih =>
      exact Or.inr ⟨ih, by show ([] : List Nat).length ≤ cap; simp,
        fun h => absurd h (by
          rw [show (Stack.buffer cap r).init.sink = r.init from rfl,
            stack_init_held r]
          simp)⟩
  | withF d f r ih =>
      exact Or.inr ⟨ih, fun h => absurd h (by
        rw [show (Stack.withF d f r).init.sink = r.init from rfl,
          stack_init_held r]
        simp)⟩
  | flatMap f r ih =>
      exact Or.inr ⟨ih, fun h => absurd h (by
        rw [show (Stack.flatMap f r).init.sink = r.init from rfl,
          stack_init_held r]
        simp)⟩
  | fanout l r ihl ihr =>
      exact Or.inr ⟨ihl, ihr,
        by
          rw [show (Stack.fanout l r).init.sink1 = l.init from rfl,
            stack_init_held l]
          rfl,
        by
          rw [show (Stack.fanout l r).init.sink2 = r.init from rfl,
            stack_init_held r]
          rfl⟩

/-- A freshly composed stack has the empty input's future output. -/
theorem stack_init_FO (st : Stack) : st.toGood.FO st.init = st.toGood.den [] := by
  induction st with
  | base p => rfl
  | buffer cap r ih =>
      show zipApp (r.toGood.FO r.init) (r.toGood.den (effBuf r.toGood r.init []))
        = r.toGood.den []
      rw [effBuf_nil r.toGood r.init, FO_den_nil (stack_laws r) r.init]
      exact ih
  | withF d f r ih =>
      show zipApp (r.toGood.FO r.init) (r.toGood.den []) = r.toGood.den []
      rw [FO_den_nil (stack_laws r) r.init]
      exact ih
  | flatMap f r ih =>
      show zipApp (r.toGood.FO r.init)
          (r.toGood.den
            ((if (r.toGood.held r.init).isSome then []
              else Option.toList (none : Option Nat)) ++ oks []))
        = r.toGood.den (([] : List Nat).flatMap f)
      rw [stack_init_held r]
      show zipApp (r.toGood.FO r.init) (r.toGood.den []) = r.toGood.den []
      rw [FO_den_nil (stack_laws r) r.init]
      exact ih
  | fanout l r ihl ihr =>
      show zipApp (l.toGood.FO l.init) (l.toGood.den []) ++
          zipApp (r.toGood.FO r.init) (r.toGood.den [])
        = l.toGood.den [] ++ r.toGood.den []
      rw [FO_den_nil (stack_laws l) l.init, FO_den_nil (stack_laws r) r.init,
        ihl, ihr]

/-- Main driver invariant: a successful `sendAll` run over any sink that
satisfies the accounting laws records exactly the denoted image of the
input already delivered plus the remaining items. -/
theorem drive_good {G : GoodSink} (L : Laws G) :
    ∀ (fuel : Nat) (s : G.σ) (done todo : List Nat) (s' : G.σ),
      G.WF s →
      ((G.held s = none ∧ G.FO s = G.den done) ∨
        (∃ v rest, todo = v :: rest ∧ G.held s = some v ∧
          G.FO s = G.den (done ++ [v]))) →
      sendAll G.S fuel s todo = some s' →
      G.Rec s' = G.den (done ++ todo) := by
  intro fuel
  induction fuel with
  | zero =>
      intro s done todo s' _ _ hsa
      rw [show sendAll G.S 0 s todo = none from rfl] at hsa
      exact absurd hsa (by simp)
  | succ fuel ih =>
      intro s done todo s' hWF hinv hsa
      cases todo with
      | nil =>
          have hFO : G.FO s = G.den done := by
            rcases hinv with ⟨_, h⟩ | ⟨v, rest, habs, _⟩
            · exact h
            · exact absurd habs (by simp)
          have hheld : G.held s = none := by
            rcases hinv with ⟨h, _⟩ | ⟨v, rest, habs, _⟩
            · exact h
            · exact absurd habs (by simp)
          rw [List.append_nil]
          simp only [sendAll] at hsa
          split at hsa
          next s1 heq =>
              injection hsa with h1
              subst h1
              obtain ⟨_, hFO1, _, hRec⟩ := L.flush_law s s1 .ready hWF hheld heq
              rw [← hRec, hFO1, hFO]
          next s1 heq =>
              obtain ⟨hWF1, hFO1, hN1⟩ := L.flush_law s s1 .pending hWF hheld heq
              have hrec := ih s1 done [] s' hWF1
                (Or.inl ⟨Option.isNone_iff_eq_none.mp hN1, by rw [hFO1, hFO]⟩) hsa
              rw [List.append_nil] at hrec
              exact hrec
          next heq => exact absurd hsa (by simp)
      | cons v vs =>
          simp only [sendAll] at hsa
          split at hsa
          next s1 heq =>
              obtain ⟨hWF1, hN1, hIf⟩ := L.send_law s v s1 .accepted hWF heq
              have hFO1 : G.FO s1 = G.den (done ++ [v]) := by
                rcases hinv with ⟨hheld, hFO⟩ | ⟨w, rest, htodo, hheld, hFO⟩
                · rw [if_neg (by rw [hheld]; simp)] at hIf
                  rw [hIf, hFO, ← L.den_app]
                · injection htodo with hw hrest
                  subst hw
                  rw [if_pos (by rw [hheld]; simp)] at hIf
                  rw [hIf, hFO]
              have hrec := ih s1 (done ++ [v]) vs s' hWF1
                (Or.inl ⟨Option.isNone_iff_eq_none.mp hN1, hFO1⟩) hsa
              rw [hrec, List.append_assoc, List.singleton_append]
          next s1 heq =>
              obtain ⟨hWF1, hdisj⟩ := L.send_law s v s1 .rejected hWF heq
              have hinv' : (G.held s1 = none ∧ G.FO s1 = G.den done) ∨
                  (∃ w rest, v :: vs = w :: rest ∧ G.held s1 = some w ∧
                    G.FO s1 = G.den (done ++ [w])) := by
                rcases hinv with ⟨hheld, hFO⟩ | ⟨w, rest, htodo, hheld, hFO⟩
                · rcases hdisj with ⟨hFOe, hhe⟩ | ⟨hnone, hFO1, hh1⟩
                  · exact Or.inl ⟨by rw [hhe, hheld], by rw [hFOe, hFO]⟩
                  · exact Or.inr ⟨v, vs, rfl, hh1,
                      by rw [hFO1, hFO, ← L.den_app]⟩
                · injection htodo with hw hrest
                  subst hw
                  rcases hdisj with ⟨hFOe, hhe⟩ | ⟨hnone, hFO1, hh1⟩
                  · exact Or.inr ⟨v, vs, rfl, by rw [hhe, hheld],
                      by rw [hFOe, hFO]⟩
                  · rw [hheld] at hnone; simp at hnone
              exact ih s1 done (v :: vs) s' hWF1 hinv' hsa
          next heq => exact absurd hsa (by simp)

/-- A transformation-free stack denotes every input as one copy per
leaf. -/
theorem stack_pure_den : ∀ st : Stack, st.isPure = true → ∀ xs : List Nat,
    st.toGood.den xs = List.replicate (st.toGood.den []).length xs := by
  intro st
  induction st with
  | base p => intro _ xs; rfl
  | buffer cap r ih => intro h xs; exact ih h xs
  | withF d f r ih => intro h xs; simp [Stack.isPure] at h
  | flatMap f r ih => intro h xs; simp [Stack.isPure] at h
  | fanout l r ihl ihr =>
      intro h xs
      rw [show (Stack.fanout l r).isPure = (l.isPure && r.isPure) from rfl,
        Bool.and_eq_true] at h
      obtain ⟨hl, hr⟩ := h
      show l.toGood.den xs ++ r.toGood.den xs
        = List.replicate (l.toGood.den [] ++ r.toGood.den []).length xs
      rw [List.length_append, ihl hl xs, ihr hr xs, List.replicate_add]

/-- C1: order preservation through arbitrary adapter stacks.  For every
stack built from the `buffer`, `with`, `with_flat_map` and `fanout`
combinators over recording leaf sinks, and every finite input that the
`send_all` driver drives to completion, the per-leaf recordings equal the
stack's denoted image of the input; in particular, for stacks with no
transformation layer (`with`/`with_flat_map`), every leaf records exactly
the input sequence — no adapter drops, duplicates, or reorders items. -/
theorem order_preservation (st : Stack) (fuel : Nat) (xs : List Nat)
    (s' : st.toGood.σ)
    (h : sendAll st.toGood.S fuel st.init xs = some s') :
    st.toGood.Rec s' = st.toGood.den xs ∧
    (st.isPure = true → ∀ r ∈ st.toGood.Rec s', r = xs) := by
  have hmain : st.toGood.Rec s' = st.toGood.den xs := by
    have hrec := drive_good (stack_laws st) fuel st.init [] xs s'
      (stack_init_WF st)
      (Or.inl ⟨stack_init_held st, stack_init_FO st⟩) h
    simpa using hrec
  refine ⟨hmain, fun hp r hr => ?_⟩
  rw [hmain, stack_pure_den st hp xs] at hr
  exact List.eq_of_mem_replicate hr

theorem order_preservation_witness :
    (Stack.buffer 1 (Stack.fanout (Stack.base ⟨none, 0, none⟩)
        (Stack.base ⟨none, 1, none⟩))).toGood.Rec
      ((sendAll (Stack.buffer 1 (Stack.fanout (Stack.base ⟨none, 0, none⟩)
          (Stack.base ⟨none, 1, none⟩))).toGood.S 30
        (Stack.buffer 1 (Stack.fanout (Stack.base ⟨none, 0, none⟩)
          (Stack.base ⟨none, 1, none⟩))).init [5, 7]).getD
        (Stack.buffer 1 (Stack.fanout (Stack.base ⟨none, 0, none⟩)
          (Stack.base ⟨none, 1, none⟩))).init)
      = (Stack.buffer 1 (Stack.fanout (Stack.base ⟨none, 0, none⟩)
          (Stack.base ⟨none, 1, none⟩))).toGood.den [5, 7] ∧
    ∀ r ∈ (Stack.buffer 1 (Stack.fanout (Stack.base ⟨none, 0, none⟩)
        (Stack.base ⟨none, 1, none⟩))).toGood.Rec
      ((sendAll (Stack.buffer 1 (Stack.fanout (Stack.base ⟨none, 0, none⟩)
          (Stack.base ⟨none, 1, none⟩))).toGood.S 30
        (Stack.buffer 1 (Stack.fanout (Stack.base ⟨none, 0, none⟩)
          (Stack.base ⟨none, 1, none⟩))).init [5, 7]).getD
        (Stack.buffer 1 (Stack.fanout (Stack.base ⟨none, 0, none⟩)
          (Stack.base ⟨none, 1, none⟩))).init), r = [5, 7] := by
  have h := order_preservation
    (Stack.buffer 1 (Stack.fanout (Stack.base ⟨none, 0, none⟩)
      (Stack.base ⟨none, 1, none⟩))) 30 [5, 7]
    ((sendAll (Stack.buffer 1 (Stack.fanout (Stack.base ⟨none, 0, none⟩)
        (Stack.base ⟨none, 1, none⟩))).toGood.S 30
      (Stack.buffer 1 (Stack.fanout (Stack.base ⟨none, 0, none⟩)
        (Stack.base ⟨none, 1, none⟩))).init [5, 7]).getD
      (Stack.buffer 1 (Stack.fanout (Stack.base ⟨none, 0, none⟩)
        (Stack.base ⟨none, 1, none⟩))).init)
    (by rfl)
  exact ⟨h.1, h.2 rfl⟩

end FuturesSink
